import Mathlib

/-!
# Verification development for the EMD core (`src/server/EMD_main.py`)

This file gives a shallow embedding, in Lean 4, of the Empirical Mode
Decomposition engine implemented by the class `EMD` of
`src/server/EMD_main.py`, together with theorems that settle a list of
claims about that program.

Modelling conventions, used consistently below:

* Python/NumPy `float64` values are modelled by `ℚ` (exact arithmetic).
  All the claims treated here are about control flow, counts and index
  bookkeeping; none of them hinges on rounding error.  Wherever IEEE
  semantics could diverge from `ℚ` (division by zero producing `inf`
  instead of Lean's `x / 0 = 0`), a comment marks the spot and the
  theorems are phrased so that the conclusion is insensitive to the
  difference.
* NumPy arrays are modelled by `List ℚ`; index arrays by `List Nat`.
  Python indexing with a possibly negative index is modelled by
  `pyIdx` (negative indices wrap around, as in Python).  Out-of-range
  accesses are modelled by `getD` with default `0`; every use site is
  in-range in the executions the theorems talk about.
* The repository runs under Python 2 (`xrange` in the main block), so
  `round` is round-half-away-from-zero and integer NumPy arrays divide
  with floor division; the two midpoint computations of
  `findExtrema_simple` are modelled accordingly.
* `scipy.interpolate.interp1d` is an external library call, not code of
  this repository; it is modelled by an uninterpreted function parameter
  (`InterpOracle`).  The branches of `splinePoints` that never reach the
  oracle (`akima`, the 3-point `cubic` fallback, the error branch) are
  embedded fully from the source.
* The inner sifting loop is bounded by `MAX_ITERATION` in the source and
  is embedded as structural recursion on the remaining iteration budget.
  The outer loop of `emd` has no bound in the source (it need not
  terminate), so its embedding takes an explicit fuel argument and
  returns an error when the fuel runs out; a normal return of the Python
  function corresponds to an `Except.ok` value.
* For the purposes of the claims, a few pieces of bookkeeping are
  carried along that the Python code does not store explicitly: the exit
  reason of each inner loop and the number of `checkImf` calls.  They
  only record which branch of the embedded source was taken.
-/

set_option maxRecDepth 40000
set_option maxHeartbeats 4000000

/-! ## Generic list helpers (NumPy / Python operations) -/

/-- Decidable equality on `Except` values (needed to evaluate concrete
executions by `decide`). -/
instance {e a : Type} [DecidableEq e] [DecidableEq a] : DecidableEq (Except e a) :=
  fun x y =>
  match x, y with
  | Except.ok u, Except.ok v =>
    if h : u = v then isTrue (by rw [h]) else isFalse (by intro hh; cases hh; exact h rfl)
  | Except.error u, Except.error v =>
    if h : u = v then isTrue (by rw [h]) else isFalse (by intro hh; cases hh; exact h rfl)
  | Except.ok _, Except.error _ => isFalse (by intro hh; cases hh)
  | Except.error _, Except.ok _ => isFalse (by intro hh; cases hh)

/-- Elementwise subtraction, `a - b` on NumPy arrays of equal length. -/
def elemSub (a b : List ℚ) : List ℚ := List.zipWith (· - ·) a b

/-- Elementwise addition of NumPy arrays of equal length. -/
def elemAdd (a b : List ℚ) : List ℚ := List.zipWith (· + ·) a b

/-- `np.diff`: the list of consecutive differences `l[i+1] - l[i]`. -/
def npdiff (l : List ℚ) : List ℚ := List.zipWith (· - ·) l.tail l

/-- `np.diff` on an integer list. -/
def npdiffInt (l : List ℤ) : List ℤ := List.zipWith (· - ·) l.tail l

/-- `np.diff` on an index list (values are increasing at use sites). -/
def npdiffNat (l : List Nat) : List Nat := List.zipWith (· - ·) l.tail l

/-- Python `max` of a nonempty array (`0` on `[]`, unreachable at use sites). -/
def pmax : List ℚ → ℚ
  | [] => 0
  | x :: xs => xs.foldl max x

/-- Python `min` of a nonempty array (`0` on `[]`, unreachable at use sites). -/
def pmin : List ℚ → ℚ
  | [] => 0
  | x :: xs => xs.foldl min x

/-- Fancy indexing `l[idxs]` of a value array by an index array. -/
def gather (l : List ℚ) (idxs : List Nat) : List ℚ :=
  idxs.map (fun i => l.getD i 0)

/-- Python indexing with wrap-around for negative indices, `l[i]`. -/
def pyIdx (l : List ℚ) (i : ℤ) : ℚ :=
  if i < 0 then l.getD (l.length - (-i).toNat) 0 else l.getD i.toNat 0

/-- Python slice `l[a:b]` (with the usual clamping). -/
def pySlice (l : List α) (a b : Nat) : List α := (l.take b).drop a

/-- `max (x, 0)` on an integer, used for Python's `max(i, 0)` on slice bounds
that are computed with subtractions that may go negative. -/
def toIdx (i : ℤ) : Nat := i.toNat

/-- Ascending insertion sort on `Nat` (Python's `list.sort()`). -/
def sortNat (l : List Nat) : List Nat :=
  let rec ins (x : Nat) : List Nat → List Nat
    | [] => [x]
    | y :: ys => if x ≤ y then x :: y :: ys else y :: ins x ys
  l.foldr ins []

/-- Indicator list: `1` where the predicate holds, `0` elsewhere. -/
def indicator (l : List ℚ) (p : ℚ → Bool) : List ℤ :=
  l.map (fun x => if p x then (1 : ℤ) else 0)

/-! ## `EMD.findExtrema_simple` (lines 675–763)

Zero crossings and local extrema of a discrete signal, including the
plateau (flat-run) handling. -/

/-- The zero-crossing index list `indzer` of `findExtrema_simple`
(lines 693–708).  An index `i` with `s[i]*s[i+1] < 0` is a crossing; when
exact zero samples exist, runs of consecutive zeros are collapsed to the
run's midpoint (integer floor midpoint: Python 2 NumPy integer division at
line 704) while isolated zeros are taken directly, and the two index sets
are merged in sorted order. -/
def zeroCrossIdx (s : List ℚ) : List Nat :=
  let base := (List.range (s.length - 1)).filter
    (fun i => s.getD i 0 * s.getD (i + 1) 0 < 0)
  if s.any (· = 0) then
    let iz := (List.range s.length).filter (fun i => s.getD i 0 = 0)
    let indz :=
      if (npdiffNat iz).any (· = 1) then
        let zer := indicator s (fun x => x = 0)
        let dz := npdiffInt ([0] ++ zer ++ [0])
        let debz := (List.range dz.length).filter (fun k => dz.getD k 0 = 1)
        let finz := ((List.range dz.length).filter (fun k => dz.getD k 0 = -1)).map
          (fun k => k - 1)
        List.zipWith (fun a b => (a + b) / 2) debz finz
      else iz
    sortNat (base ++ indz)
  else base

/-- The plateau runs of `findExtrema_simple` (lines 717–737): maximal runs
of zero first-differences, as pairs `(deb, fin)`, after the two stripping
steps of the source.  The first stripping tests `debs[0] == 1` exactly as
line 725 does (see the theorem for claim C7: this drops a run that starts
at difference index 1 and keeps a run that starts at index 0). -/
def plateauRuns (s : List ℚ) : List (Nat × Nat) :=
  let d := npdiff s
  let bad := indicator d (fun x => x = 0)
  let dd := npdiffInt ([0] ++ bad ++ [0])
  let debs0 := (List.range dd.length).filter (fun k => dd.getD k 0 = 1)
  let fins0 := (List.range dd.length).filter (fun k => dd.getD k 0 = -1)
  let p1 : List Nat × List Nat :=
    if debs0.headD 0 = 1 then
      if debs0.length > 1 then (debs0.drop 1, fins0.drop 1) else ([], [])
    else (debs0, fins0)
  let p2 : List Nat × List Nat :=
    if p1.1.length > 0 then
      if p1.2.getLastD 0 = s.length - 1 then
        if p1.1.length > 1 then (p1.1.dropLast, p1.2.dropLast) else ([], [])
      else p1
    else p1
  List.zip p2.1 p2.2

/-- Python 2 `round((fin + deb)/2.)` for the (nonnegative) plateau
midpoint: round half away from zero. -/
def plateauMid (deb fin : Nat) : Nat := (fin + deb + 1) / 2

/-- The local-extrema index lists `(indmax, indmin)` of
`findExtrema_simple` (lines 710–756): sign changes of the first
difference, plus one extremum per suitably flanked plateau run, merged in
sorted order.  `d[debs[k]-1]` uses Python indexing (a run starting at
difference index 0 reads `d[-1]`, the last difference, by wrap-around). -/
def findExtremaIdx (s : List ℚ) : List Nat × List Nat :=
  let d := npdiff s
  let indmin := ((List.range (d.length - 1)).filter
    (fun i => d.getD i 0 * d.getD (i + 1) 0 < 0 ∧ d.getD i 0 < 0)).map (· + 1)
  let indmax := ((List.range (d.length - 1)).filter
    (fun i => d.getD i 0 * d.getD (i + 1) 0 < 0 ∧ d.getD i 0 > 0)).map (· + 1)
  if d.any (· = 0) then
    let runs := plateauRuns s
    let imax := runs.filterMap (fun r =>
      if pyIdx d ((r.1 : ℤ) - 1) > 0 then
        if d.getD r.2 0 < 0 then some (plateauMid r.1 r.2) else none
      else none)
    let imin := runs.filterMap (fun r =>
      if pyIdx d ((r.1 : ℤ) - 1) > 0 then none
      else if d.getD r.2 0 > 0 then some (plateauMid r.1 r.2) else none)
    (if imax.length > 0 then sortNat (indmax ++ imax) else indmax,
     if imin.length > 0 then sortNat (indmin ++ imin) else indmin)
  else (indmax, indmin)

/-- The result quintuple of `findExtrema_simple`. -/
structure ExtremaRes where
  maxPos : List ℚ
  maxVal : List ℚ
  minPos : List ℚ
  minVal : List ℚ
  indzer : List Nat
  deriving DecidableEq, Repr

/-- `EMD.findExtrema_simple(t, s)` (lines 675–763). -/
def findExtrema_simple (t s : List ℚ) : ExtremaRes :=
  let p := findExtremaIdx s
  { maxPos := gather t p.1
    maxVal := gather s p.1
    minPos := gather t p.2
    minVal := gather s p.2
    indzer := zeroCrossIdx s }

/-! ## `EMD.checkImf` (lines 784–807) as invoked from `EMD.emd`

The source function is declared as
`checkImf(self, imfNew, imfOld, eMax, eMin, mean)`, but the single call
site, line 972, is `self.checkImf(imf, maxEnv, minEnv, mean, extNo)`:
the parameter `imfOld` receives the *upper envelope* `maxEnv`, `eMax`
receives the one-dimensional lower envelope `minEnv`, `eMin` receives
the one-dimensional mean envelope, and the unused last parameter
receives the extrema count.  The embedding below takes the types the
function is actually applied at, so `eMax[1]` and `eMin[1]` select one
scalar each (`np.any` of a scalar comparison is that comparison).
`(imfNew - imfOld) / imfNew` divides elementwise; a zero entry of
`imfNew` would give `inf`/`nan` in NumPy and gives `0` here — the
executions used in the theorems below have no zero entry at that spot.
Likewise `max(imfOld) - min(imfOld)` can be `0` only for a constant
`imfOld`, which does not occur in the executions used below. -/
def checkImf (stdThreshold scaledVarThreshold : ℚ)
    (imfNew imfOld eMax eMin : List ℚ) (_extNoArg : Nat) : Bool :=
  if eMax.getD 1 0 < 0 ∨ eMin.getD 1 0 > 0 then false
  else if (imfNew.map (fun x => x ^ 2)).sum < 1 / 10 ^ 10 then false
  else
    let std := (List.zipWith (fun a b => ((a - b) / a) ^ 2) imfNew imfOld).sum
    let scaledVar := (List.zipWith (fun a b => (a - b) ^ 2) imfNew imfOld).sum /
      (pmax imfOld - pmin imfOld)
    if scaledVar < scaledVarThreshold then true
    else if std < stdThreshold then true
    else false

/-- The convergence test as the specification describes it (claim C1):
both difference metrics are computed between the current candidate and
the *previous iteration's candidate*, and the test accepts iff at least
one metric is below its threshold.  This definition follows the claim's
words and exists only to be compared against `checkImf` as the code
actually invokes it; it is not translated from the source. -/
def checkImfStated (stdThreshold scaledVarThreshold : ℚ)
    (candidate previousCandidate : List ℚ) : Bool :=
  let std := (List.zipWith (fun a b => ((a - b) / a) ^ 2)
    candidate previousCandidate).sum
  let scaledVar := (List.zipWith (fun a b => (a - b) ^ 2)
    candidate previousCandidate).sum /
    (pmax previousCandidate - pmin previousCandidate)
  scaledVar < scaledVarThreshold ∨ std < stdThreshold

/-! ## `EMD.endCondition` (lines 765–782) -/

/-- `EMD.endCondition(Res, IMF)`: subtract every stored IMF from the
(scaled) signal and stop when the remainder's range is below
`rangeThreshold` or its total absolute power is below
`totalPowerThreshold`.  The Python function returns `True`, `True` or
(falsy) `None`; it is embedded as a `Bool`. -/
def endCondition (rangeThreshold totalPowerThreshold : ℚ)
    (res : List ℚ) (imfs : List (List ℚ)) : Bool :=
  let tmp := imfs.foldl elemSub res
  pmax tmp - pmin tmp < rangeThreshold ∨ (tmp.map abs).sum < totalPowerThreshold

/-! ## `EMD.preparePoints_coppiedFromMatlab` (lines 271–401)

Boundary extension by mirroring.  The computation is split into the
stages of the source: the branch selection for each edge (lines
304–342), the empty-slice fallbacks (lines 345–348), the
re-mirroring correction with its `raise Exception('bug')` guard (lines
357–381), and the final assembly with adjacent-duplicate removal (lines
383–399). -/

/-- Index selections for one edge: mirrored maxima indices, mirrored
minima indices, and the index of the mirror axis sample. -/
structure EdgeSel where
  emax : List Nat
  emin : List Nat
  sym : Nat
  deriving DecidableEq, Repr

/-- Left-edge selection (lines 304–321).  `indmax`/`indmin` are the
sample indices of the maxima/minima; `S` the signal. -/
def leftSel (S : List ℚ) (indmax indmin : List Nat) (nbsym : Nat) : EdgeSel :=
  let endMax := indmax.length
  let endMin := indmin.length
  if indmax.headD 0 < indmin.headD 0 then
    if S.getD 0 0 > S.getD (indmin.headD 0) 0 then
      { emax := (pySlice indmax 1 (min endMax (nbsym + 1))).reverse
        emin := (pySlice indmin 0 (min endMin nbsym)).reverse
        sym := indmax.headD 0 }
    else
      { emax := (pySlice indmax 0 (min endMax nbsym)).reverse
        emin := (pySlice indmin 0 (min endMin (nbsym - 1))).reverse ++ [0]
        sym := 0 }
  else
    if S.getD 0 0 < S.getD (indmax.headD 0) 0 then
      { emax := (pySlice indmax 0 (min endMax nbsym)).reverse
        emin := (pySlice indmin 1 (min endMin (nbsym + 1))).reverse
        sym := indmin.headD 0 }
    else
      { emax := (pySlice indmax 0 (min endMax (nbsym - 1))).reverse ++ [0]
        emin := (pySlice indmin 0 (min endMin nbsym)).reverse
        sym := 0 }

/-- Right-edge selection (lines 325–342).  `n` is `len(S)`.  The slice
lower bounds `max(end - nbsym ± 1, 0)` are computed in `ℤ` and clamped,
as Python's `max(·, 0)` does. -/
def rightSel (S : List ℚ) (n : Nat) (indmax indmin : List Nat) (nbsym : Nat) :
    EdgeSel :=
  let endMax := indmax.length
  let endMin := indmin.length
  if indmax.getLastD 0 < indmin.getLastD 0 then
    if S.getD (n - 1) 0 < S.getD (indmax.getLastD 0) 0 then
      { emax := (indmax.drop (toIdx ((endMax : ℤ) - nbsym))).reverse
        emin := (pySlice indmin (toIdx ((endMin : ℤ) - nbsym - 1)) (endMin - 1)).reverse
        sym := indmin.getLastD 0 }
    else
      { emax := (indmax.drop (toIdx ((endMax : ℤ) - nbsym + 1)) ++ [n - 1]).reverse
        emin := (indmin.drop (toIdx ((endMin : ℤ) - nbsym))).reverse
        sym := n - 1 }
  else
    if S.getD (n - 1) 0 > S.getD (indmin.getLastD 0) 0 then
      { emax := (pySlice indmax (toIdx ((endMax : ℤ) - nbsym - 1)) (endMax - 1)).reverse
        emin := (indmin.drop (toIdx ((endMin : ℤ) - nbsym))).reverse
        sym := indmax.getLastD 0 }
    else
      { emax := (indmax.drop (toIdx ((endMax : ℤ) - nbsym))).reverse
        emin := (indmin.drop (toIdx ((endMin : ℤ) - nbsym + 1)) ++ [n - 1]).reverse
        sym := n - 1 }

/-- Mirror the samples at indices `idxs` across the sample at `sym`
(lines 351–354, 367–368, 380–381): positions `2*T[sym] - T[i]`. -/
def mirrorPos (T : List ℚ) (sym : Nat) (idxs : List Nat) : List ℚ :=
  idxs.map (fun i => 2 * T.getD sym 0 - T.getD i 0)

/-- Left-edge degenerate correction (lines 357–368).  If the outermost
mirrored position on the left is strictly inside the time range, the
mirrored point set is re-selected, the axis is forced to sample `0` and
the points are re-mirrored — unless the axis already was sample `0`, in
which case `Exception('bug')` is raised. -/
def correctLeft (T : List ℚ) (indmax indmin : List Nat) (nbsym : Nat)
    (sel : EdgeSel) : Except String EdgeSel :=
  let tlmin := mirrorPos T sel.sym sel.emin
  let tlmax := mirrorPos T sel.sym sel.emax
  if tlmin.headD 0 > T.headD 0 ∨ tlmax.headD 0 > T.headD 0 then
    let sel' :=
      if sel.sym = indmax.headD 0 then
        { sel with emax := (pySlice indmax 0 (min indmax.length nbsym)).reverse }
      else
        { sel with emin := (pySlice indmin 0 (min indmin.length nbsym)).reverse }
    if sel.sym = 0 then Except.error "bug"
    else Except.ok { sel' with sym := 0 }
  else Except.ok sel

/-- Right-edge degenerate correction (lines 370–381), the mirror image of
`correctLeft` with axis forced to the last sample `n - 1`. -/
def correctRight (T : List ℚ) (n : Nat) (indmax indmin : List Nat) (nbsym : Nat)
    (sel : EdgeSel) : Except String EdgeSel :=
  let trmin := mirrorPos T sel.sym sel.emin
  let trmax := mirrorPos T sel.sym sel.emax
  if trmin.getLastD 0 < T.getLastD 0 ∨ trmax.getLastD 0 < T.getLastD 0 then
    let sel' :=
      if sel.sym = indmax.getLastD 0 then
        { sel with emax := (indmax.drop (toIdx ((indmax.length : ℤ) - nbsym))).reverse }
      else
        { sel with emin := (indmin.drop (toIdx ((indmin.length : ℤ) - nbsym))).reverse }
    if sel.sym = n - 1 then Except.error "bug"
    else Except.ok { sel' with sym := n - 1 }
  else Except.ok sel

/-- Adjacent-duplicate removal (lines 398–399) on the columns of a
2-row extrema array: `np.delete` at the indices where a position equals
its successor removes, of every run of equal adjacent positions, all
columns but the last. -/
def dedupCols : List (ℚ × ℚ) → List (ℚ × ℚ)
  | [] => []
  | [c] => [c]
  | c :: c' :: cs =>
    if c.1 = c'.1 then dedupCols (c' :: cs) else c :: dedupCols (c' :: cs)

/-- Adjacent-duplicate removal on a (positions, values) pair. -/
def dedupAdj (pos vals : List ℚ) : List ℚ × List ℚ :=
  ((dedupCols (pos.zip vals)).map Prod.fst, (dedupCols (pos.zip vals)).map Prod.snd)

/-- The index-of-position lookup of lines 292–293:
`np.nonzero(T == p)` flattened over all positions `p`. -/
def posIdx (T : List ℚ) (ps : List ℚ) : List Nat :=
  ps.flatMap (fun p => (List.range T.length).filter (fun i => T.getD i 0 = p))

/-- The empty-selection fallbacks of lines 345–348: an empty mirrored
index list is replaced by the corresponding full extrema index list. -/
def fallbackSel (sel : EdgeSel) (indmax indmin : List Nat) : EdgeSel :=
  { emax := if sel.emax.isEmpty then indmax else sel.emax
    emin := if sel.emin.isEmpty then indmin else sel.emin
    sym := sel.sym }

/-- `EMD.preparePoints_coppiedFromMatlab(T, S, maxPos, maxVal, minPos,
minVal)` (lines 271–401).  Returns the extended
(positions, values) pair for the maxima and for the minima;
`Except.error` models the `raise Exception('bug')` of the degenerate
safeguard.  The `maxVal`/`minVal` arguments of the source are unused by
it (values are re-read from `S`), and are therefore not parameters
here. -/
def preparePoints (T S : List ℚ) (maxPos minPos : List ℚ) (nbsym : Nat) :
    Except String ((List ℚ × List ℚ) × (List ℚ × List ℚ)) :=
  let indmin := posIdx T minPos
  let indmax := posIdx T maxPos
  let l1 := fallbackSel (leftSel S indmax indmin nbsym) indmax indmin
  let r1 := fallbackSel (rightSel S S.length indmax indmin nbsym) indmax indmin
  match correctLeft T indmax indmin nbsym l1,
      correctRight T S.length indmax indmin nbsym r1 with
  | Except.error e, _ => Except.error e
  | _, Except.error e => Except.error e
  | Except.ok lsel, Except.ok rsel =>
    let tmax := mirrorPos T lsel.sym lsel.emax ++ gather T indmax ++
      mirrorPos T rsel.sym rsel.emax
    let tmin := mirrorPos T lsel.sym lsel.emin ++ gather T indmin ++
      mirrorPos T rsel.sym rsel.emin
    let zmax := gather S lsel.emax ++ gather S indmax ++ gather S rsel.emax
    let zmin := gather S lsel.emin ++ gather S indmin ++ gather S rsel.emin
    Except.ok (dedupAdj tmax zmax, dedupAdj tmin zmin)

/-! ## `EMD.akima` (lines 480–554) and `EMD.cubicSpline_3points` (439–478) -/

/-- `np.digitize(q, X)` for ascending `X`: the number of knots `≤ q`. -/
def countLe (X : List ℚ) (q : ℚ) : Nat := (X.filter (fun v => v ≤ q)).length

/-- `EMD.akima(X, Y, x)` (lines 480–554): Akima interpolation through the
knots `(X, Y)`, evaluated at the query points `x`.  The three `raise`
statements of the source are the three `Except.error` branches; in
addition the source indexes `d[1]` and `d[n-3]`, which raises
`IndexError` when there are fewer than 3 knots, modelled by the fourth
error branch. -/
def akima (X Y x : List ℚ) : Except String (List ℚ) :=
  let n := X.length
  if X.length ≠ Y.length then
    Except.error "input x and y arrays must be of same length"
  else
    let dx := npdiff X
    let dy := npdiff Y
    if dx.any (· ≤ 0) then
      Except.error "input x-array must be in strictly ascending order"
    else if x.any (fun q => q < X.headD 0) ∨ x.any (fun q => q > X.getLastD 0) then
      Except.error "All interpolation points xi must lie between x(1) and x(n)"
    else if n < 3 then
      Except.error "IndexError"
    else
      let d := List.zipWith (· / ·) dy dx
      let dpp := 2 * d.getD 0 0 - d.getD 1 0
      let dp := 2 * dpp - d.getD 0 0
      let dn := 2 * d.getD (n - 2) 0 - d.getD (n - 3) 0
      let dnn := 2 * dn - d.getD (n - 2) 0
      let d1 := [dpp, dp] ++ d ++ [dn, dnn]
      let w := (npdiff d1).map abs
      let w1 := pySlice w 2 (n + 2)
      let w2 := w.take n
      let w12 := List.zipWith (· + ·) w1 w2
      let mw := pmax w12
      let a1 := (List.range n).map (fun i =>
        if w12.getD i 0 > 1 / 10 ^ 9 * mw then
          (w1.getD i 0 * d1.getD (i + 1) 0 + w2.getD i 0 * d1.getD (i + 2) 0) /
            w12.getD i 0
        else d1.getD (i + 1) 0)
      let a2 := (List.range (n - 1)).map (fun i =>
        (3 * d.getD i 0 - 2 * a1.getD i 0 - a1.getD (i + 1) 0) / dx.getD i 0)
      let a3 := (List.range (n - 1)).map (fun i =>
        (a1.getD i 0 + a1.getD (i + 1) 0 - 2 * d.getD i 0) /
          (dx.getD i 0 * dx.getD i 0))
      Except.ok (x.map (fun q =>
        let bb := min (countLe X q) (n - 1) - 1
        let u := q - X.getD bb 0
        ((u * a3.getD bb 0 + a2.getD bb 0) * u + a1.getD bb 0) * u + Y.getD bb 0))

/-- `EMD.cubicSpline_3points(T, extrema)` (lines 439–478): the explicit
two-segment cubic through exactly 3 control points, solving the 3×3
system `M k = v` (`np.linalg.inv`; a singular `M` raises `LinAlgError`,
modelled as an error; the source's divisions `1/x1x0`, `1/x2x1` hit
NumPy's `inf` on duplicate abscissas, while here `x/0 = 0` — the use
sites have strictly increasing abscissas).  Unpacking `x0, x1, x2`
raises `ValueError` unless there are exactly 3 points. -/
def cubicSpline_3points (T : List ℚ) (extrema : List ℚ × List ℚ) :
    Except String (List ℚ × List ℚ) :=
  match extrema.1, extrema.2 with
  | [x0, x1, x2], [y0, y1, y2] =>
    let x1x0 := x1 - x0
    let x2x1 := x2 - x1
    let y1y0 := y1 - y0
    let y2y1 := y2 - y1
    let ia := 1 / x1x0
    let ib := 1 / x2x1
    let m11 := 2 * ia
    let m12 := ia
    let m22 := 2 * (ia + ib)
    let m23 := ib
    let m33 := 2 * ib
    let v1 := 3 * y1y0 * ia * ia
    let v3 := 3 * y2y1 * ib * ib
    let v2 := v1 + v3
    let det := m11 * (m22 * m33 - m23 * m23) - m12 * (m12 * m33)
    if det = 0 then Except.error "Singular matrix"
    else
      let k0 := ((m22 * m33 - m23 * m23) * v1 + (-(m12 * m33)) * v2 +
        (m12 * m23) * v3) / det
      let k1 := ((-(m12 * m33)) * v1 + (m11 * m33) * v2 + (-(m11 * m23)) * v3) / det
      let k2 := ((m12 * m23) * v1 + (-(m11 * m23)) * v2 +
        (m11 * m22 - m12 * m12) * v3) / det
      let a1 := k0 * x1x0 - y1y0
      let b1 := -k1 * x1x0 + y1y0
      let a2 := k1 * x2x1 - y2y1
      let b2 := -k2 * x2x1 + y2y1
      let t := T.filter (fun u => x0 ≤ u ∧ u ≤ x2)
      let t1 := (T.filter (fun u => x0 ≤ u ∧ u < x1)).map (fun u => (u - x0) / x1x0)
      let t2 := (T.filter (fun u => x1 ≤ u ∧ u ≤ x2)).map (fun u => (u - x1) / x2x1)
      let q1 := t1.map (fun s =>
        (1 - s) * y0 + s * y1 + s * (1 - s) * (a1 * (1 - s) + b1 * s))
      let q2 := t2.map (fun s =>
        (1 - s) * y1 + s * y2 + s * (1 - s) * (a2 * (1 - s) + b2 * s))
      Except.ok (t, q1 ++ q2)
  | _, _ => Except.error "ValueError: unpack"

/-! ## `EMD.splinePoints` (lines 403–437) -/

/-- The type of the external `scipy.interpolate.interp1d` call:
`(kind, knot positions, knot values, query points) ↦ values`.  scipy is
not code of this repository; the theorems below hold for every oracle. -/
def InterpOracle : Type := String → List ℚ → List ℚ → List ℚ → List ℚ

/-- `EMD.splinePoints(T, extrema, splineKind)` (lines 403–437).  The
method name is lowercased and dispatched; an unknown name raises
`Exception("No such interpolation method!")`.  Note the source returns
the restricted grid `t` for `akima`/`cubic` but the *full* grid `T` for
the `interp1d` pass-through branch, exactly as lines 425/429/434 do. -/
def splinePoints (oracle : InterpOracle) (T : List ℚ)
    (extrema : List ℚ × List ℚ) (splineKind : String) :
    Except String (List ℚ × List ℚ) :=
  let kind := splineKind.toLower
  let t := T.filter (fun u => extrema.1.headD 0 ≤ u ∧ u ≤ extrema.1.getLastD 0)
  if kind = "akima" then do
    let y ← akima extrema.1 extrema.2 t
    Except.ok (t, y)
  else if kind = "cubic" then
    if extrema.1.length > 3 then Except.ok (t, oracle kind extrema.1 extrema.2 t)
    else cubicSpline_3points T extrema
  else if kind = "slinear" ∨ kind = "quadratic" ∨ kind = "linear" then
    Except.ok (T, oracle kind extrema.1 extrema.2 t)
  else Except.error "No such interpolation method!"

/-! ## `EMD.extractMaxMinSpline` (lines 89–133) -/

/-- `EMD.extractMaxMinSpline(T, S)` (lines 89–133): find the extrema,
return the sentinel `[-1]*4` (modelled by `none`) when fewer than 3
extrema exist, otherwise extend the boundary and build both envelopes.
The quadruple is `(maxSpline, minSpline, maxExtrema, minExtrema)`. -/
def extractMaxMinSpline (oracle : InterpOracle) (splineKind : String)
    (nbsym : Nat) (T S : List ℚ) :
    Except String (Option (List ℚ × List ℚ × (List ℚ × List ℚ) × (List ℚ × List ℚ))) := do
  let er := findExtrema_simple T S
  if er.maxPos.length + er.minPos.length < 3 then
    Except.ok none
  else do
    let pts ← preparePoints T S er.maxPos er.minPos nbsym
    let ms ← splinePoints oracle T pts.1 splineKind
    let ns ← splinePoints oracle T pts.2 splineKind
    Except.ok (some (ms.2, ns.2, pts.1, pts.2))

/-! ## The engine object (`EMD.__init__`, lines 17–51)

All attributes set by the constructor, except the logger object (which
only receives suppressed debug messages and is never otherwise touched by
`emd` or its callees).  With the default `PLOT = 0` the plotting branches
of `emd` (lines 889–921) are dead code and perform no I/O. -/

/-- NumPy floating dtypes relevant to the program (`np.float16/32/64`). -/
inductive DType where
  | float16
  | float32
  | float64
  deriving DecidableEq, Repr

/-- Width rank used for dtype promotion. -/
def DType.rank : DType → Nat
  | DType.float16 => 16
  | DType.float32 => 32
  | DType.float64 => 64

/-- `np.find_common_type([a, b], [])` on floating dtypes (line 811):
the wider of the two. -/
def promoteDType (a b : DType) : DType :=
  if b.rank ≤ a.rank then a else b

/-- The `EMD` engine object: every attribute assigned in `__init__`
(lines 29–51).  `maxIteration` (400) is set but never read; the loop
bound actually used is `MAX_ITERATION` (10000). -/
structure EMDEngine where
  stdThreshold : ℚ
  scaledVarThreshold : ℚ
  powerThreshold : ℚ
  totalPowerThreshold : ℚ
  rangeThreshold : ℚ
  nbsym : Nat
  reduceScale : ℚ
  maxIteration : Nat
  scaleFactor : ℚ
  PLOT : Nat
  INTERACTIVE : Nat
  plotPath : String
  splineKind : String
  DTYPE : DType
  FIXE : Nat
  FIXE_H : Nat
  MAX_ITERATION : Nat
  deriving DecidableEq, Repr

/-- The engine as constructed by `EMD.__init__` (lines 29–51). -/
def defaultEngine : EMDEngine :=
  { stdThreshold := 2 / 10
    scaledVarThreshold := 1 / 1000
    powerThreshold := -5
    totalPowerThreshold := 1 / 100
    rangeThreshold := 1 / 1000
    nbsym := 2
    reduceScale := 1
    maxIteration := 400
    scaleFactor := 100
    PLOT := 0
    INTERACTIVE := 0
    plotPath := "splineTest"
    splineKind := "akima"
    DTYPE := DType.float64
    FIXE := 0
    FIXE_H := 0
    MAX_ITERATION := 10000 }

/-! ## The sifting loop of `EMD.emd` (lines 896–982) -/

/-- The ways the inner sifting loop can end.  `runOutHead` is the
`else` branch of `if extNo > 2` (lines 979–982, sets `notFinish = False`);
`runOutSpline` is the sentinel return of `extractMaxMinSpline` (lines
928–930, sets `notFinish = True`); the three break reasons correspond to
the three stopping policies; `exhausted` is `n` reaching
`MAX_ITERATION`. -/
inductive SiftExit where
  | runOutHead
  | runOutSpline
  | fixeBreak
  | fixeHBreak
  | cauchyBreak
  | exhausted
  deriving DecidableEq, Repr

/-- The loop-carried variables of one sifting run: the working candidate
`imf`, the previous candidate `imfOld` (line 923; kept but never read by
the call at line 972), the mean envelope of the previous iteration,
the iteration counter `n`, the streak counter `n_h`, the last computed
extrema count and zero-crossing count, and an instrumentation counter of
`checkImf` invocations. -/
structure SiftState where
  imf : List ℚ
  imfOld : List ℚ
  mean : List ℚ
  n : Nat
  n_h : Nat
  extNo : Nat
  nzm : Nat
  cauchyCalls : Nat
  deriving DecidableEq, Repr

/-- The default-policy stopping condition of lines 972–977:
`f1 = checkImf(imf, maxEnv, minEnv, mean, extNo)` and
`f2 = abs(extNo - nzm) < 2`; the loop breaks iff `f1 and f2`. -/
def defaultBreak (stdThreshold scaledVarThreshold : ℚ)
    (imf maxEnv minEnv mean : List ℚ) (extNo nzm : Nat) : Bool :=
  checkImf stdThreshold scaledVarThreshold imf maxEnv minEnv mean extNo &&
    decide (((extNo : ℤ) - (nzm : ℤ)).natAbs < 2)

/-- One execution of the inner `while (n < MAX_ITERATION)` loop of
`EMD.emd` (lines 896–982), as structural recursion on the remaining
iteration budget (`fuel = MAX_ITERATION - n`).  Mirrors the source:
compute the extrema of the candidate; if more than 2 exist, subtract
`reduceScale * mean`, rebuild the envelopes (exiting with the sentinel
when they cannot be built), update the mean and evaluate the configured
stopping policy (`FIXE`, else `FIXE_H`, else the default Cauchy-type
test); otherwise exit with `runOutHead`. -/
def siftLoop (oracle : InterpOracle) (eng : EMDEngine) (timeLine : List ℚ) :
    Nat → SiftState → Except String (SiftState × SiftExit)
  | 0, st => Except.ok (st, SiftExit.exhausted)
  | fuel + 1, st =>
    let n := st.n + 1
    let er := findExtrema_simple timeLine st.imf
    let extNo := er.maxPos.length + er.minPos.length
    let nzm := er.indzer.length
    if extNo > 2 then
      let imfOld := st.imf
      let imf := elemSub st.imf (st.mean.map (fun x => eng.reduceScale * x))
      match extractMaxMinSpline oracle eng.splineKind eng.nbsym timeLine imf with
      | Except.error e => Except.error e
      | Except.ok none =>
        Except.ok ({ st with imf := imf, imfOld := imfOld, n := n,
                             extNo := extNo, nzm := nzm }, SiftExit.runOutSpline)
      | Except.ok (some q) =>
        let maxEnv := q.1
        let minEnv := q.2.1
        let mean := (elemAdd maxEnv minEnv).map (fun x => x / 2)
        if eng.FIXE ≠ 0 then
          -- lines 939–941: extNo and nzm are not recomputed on this path
          let st' : SiftState := { st with imf := imf, imfOld := imfOld,
                                           mean := mean, n := n,
                                           extNo := extNo, nzm := nzm }
          if n ≥ eng.FIXE + 1 then Except.ok (st', SiftExit.fixeBreak)
          else siftLoop oracle eng timeLine fuel st'
        else if eng.FIXE_H ≠ 0 then
          -- lines 945–963
          let er2 := findExtrema_simple timeLine imf
          let extNo2 := er2.maxPos.length + er2.minPos.length
          let nzm2 := er2.indzer.length
          if n = 1 then
            siftLoop oracle eng timeLine fuel { st with imf := imf,
                                                        imfOld := imfOld,
                                                        mean := mean, n := n,
                                                        extNo := extNo2,
                                                        nzm := nzm2 }
          else
            let n_h := if ((extNo2 : ℤ) - (nzm2 : ℤ)).natAbs > 1 then 0
              else st.n_h + 1
            let st' : SiftState := { st with imf := imf, imfOld := imfOld,
                                             mean := mean, n := n, n_h := n_h,
                                             extNo := extNo2, nzm := nzm2 }
            if n_h ≥ eng.FIXE_H then Except.ok (st', SiftExit.fixeHBreak)
            else siftLoop oracle eng timeLine fuel st'
        else
          -- lines 966–977: the default stopping policy
          let er2 := findExtrema_simple timeLine imf
          let extNo2 := er2.maxPos.length + er2.minPos.length
          let nzm2 := er2.indzer.length
          let st' : SiftState := { st with imf := imf, imfOld := imfOld,
                                           mean := mean, n := n,
                                           extNo := extNo2, nzm := nzm2,
                                           cauchyCalls := st.cauchyCalls + 1 }
          if defaultBreak eng.stdThreshold eng.scaledVarThreshold
              imf maxEnv minEnv mean extNo2 nzm2 then
            Except.ok (st', SiftExit.cauchyBreak)
          else siftLoop oracle eng timeLine fuel st'
    else
      Except.ok ({ st with n := n, extNo := extNo, nzm := nzm },
                 SiftExit.runOutHead)

/-- The initial state of one sifting run (lines 879–884): the candidate
is the current residue, the mean is the zero array of the signal's
length, and the counters are zero.  (`imfOld` starts as a copy of the
residue, line 850/879; it is overwritten before any use.) -/
def initSift (res : List ℚ) (len : Nat) : SiftState :=
  { imf := res, imfOld := res, mean := List.replicate len 0,
    n := 0, n_h := 0, extNo := 0, nzm := 0, cauchyCalls := 0 }

/-! ## The outer loop of `EMD.emd` (lines 874–1007) -/

/-- The accumulating dictionaries of the outer loop.  The keys of the
Python dictionaries are the consecutive integers `0 .. imfNo-1` in
insertion order, so they are modelled by lists indexed by position.
`exits` records each inner loop's exit reason (instrumentation).
The wall-clock dictionary `TIME` is not modelled. -/
structure EMDState where
  IMFs : List (List ℚ)
  EXTs : List Nat
  ITERs : List Nat
  exits : List SiftExit
  deriving DecidableEq, Repr

/-- Append one finished sifting run to the outer-loop state
(lines 984–988). -/
def storeImf (st : EMDState) (s : SiftState) (ex : SiftExit) : EMDState :=
  { IMFs := st.IMFs ++ [s.imf], EXTs := st.EXTs ++ [s.extNo],
    ITERs := st.ITERs ++ [s.n], exits := st.exits ++ [ex] }

/-- The outer `while (notFinish)` loop of `EMD.emd` (lines 874–992), with
explicit fuel (the source has no bound on this loop; exhausting the fuel
is an error, i.e. a cut-off non-terminating run, never a normal return).
Each round starts from the residue `scaledS - Σ stored IMFs` (line 877)
and stores the resulting candidate unconditionally (lines 984–988).  The
loop ends if the sifting run exited through `runOutHead`
(`notFinish = False`, line 981), or if `endCondition` holds, or if the
IMF count reached `maxImf` (lines 990–992). -/
def emdLoop (oracle : InterpOracle) (eng : EMDEngine)
    (timeLine scaledS : List ℚ) (maxImf : ℤ) :
    Nat → EMDState → Except String EMDState
  | 0, _ => Except.error "outer loop fuel exhausted"
  | fuel + 1, st =>
    let res := st.IMFs.foldl elemSub scaledS
    match siftLoop oracle eng timeLine eng.MAX_ITERATION
        (initSift res scaledS.length) with
    | Except.error e => Except.error e
    | Except.ok (s, ex) =>
      let st' := storeImf st s ex
      if ex = SiftExit.runOutHead ∨
          endCondition eng.rangeThreshold eng.totalPowerThreshold scaledS st'.IMFs ∨
          (st'.IMFs.length : ℤ) = maxImf then
        Except.ok st'
      else emdLoop oracle eng timeLine scaledS maxImf fuel st'

/-- The return value of `EMD.emd` (line 1007): the dictionaries `IMF`,
`EXT`, `ITER` and the count `imfNo`, plus the instrumentation `exits`. -/
structure EMDResult where
  IMF : List (List ℚ)
  EXT : List Nat
  ITER : List Nat
  imfNo : Nat
  exits : List SiftExit
  deriving DecidableEq, Repr

/-- The dtype stored into `self.DTYPE` by lines 839/843–844: the
signal's dtype when the time array is defaulted (`np.arange` inherits
`S.dtype`), otherwise the promoted common dtype of the two inputs. -/
def emdDtype (sDtype : DType) (timeLine : Option (List ℚ)) (tDtype : DType) :
    DType :=
  match timeLine with
  | none => sDtype
  | some _ => promoteDType sDtype tDtype

/-- `EMD.emd(S, timeLine, maxImf)` (lines 817–1007).  Inputs carry their
NumPy dtypes (`sDtype`, and `tDtype` for an explicitly passed time
array) because line 844 stores the promoted common dtype into
`self.DTYPE`: the returned engine is the post-call engine object.  In
this exact-arithmetic model the dtype does not influence the numerics.
Order of effects as in the source: default the time array (line 839) and
`maxImf` (line 840), promote dtypes and assign `self.DTYPE` (843–844),
compute the scale (`max(Res)` raises on an empty signal; the division by
`scale` is NumPy `inf` for a constant signal where here `x / 0 = 0` —
the claims evaluated on that path do not depend on the quotient), check
the shapes (860–862), run the outer loop, and rescale every stored IMF
by `scale` (1004–1005). -/
def emd (oracle : InterpOracle) (fuel : Nat) (eng : EMDEngine) (S : List ℚ)
    (sDtype : DType) (timeLine : Option (List ℚ)) (tDtype : DType)
    (maxImf : Option ℤ) : Except String (EMDResult × EMDEngine) :=
  let tl := timeLine.getD ((List.range S.length).map (fun i => (i : ℚ)))
  let mi := maxImf.getD (-1)
  let eng' := { eng with DTYPE := emdDtype sDtype timeLine tDtype }
  if S.isEmpty then Except.error "max() arg is an empty sequence"
  else
    let scale := (pmax S - pmin S) / eng.scaleFactor
    if S.length ≠ tl.length then
      Except.error "Time array should be the same size as signal."
    else
      let scaledS := S.map (fun v => v / scale)
      match emdLoop oracle eng' tl scaledS mi fuel ⟨[], [], [], []⟩ with
      | Except.error e => Except.error e
      | Except.ok st =>
        Except.ok ({ IMF := st.IMFs.map (fun l => l.map (fun v => v * scale)),
                     EXT := st.EXTs, ITER := st.ITERs, imfNo := st.IMFs.length,
                     exits := st.exits }, eng')

/-! ## Concrete executions used by the theorems

The oracle below is only a placeholder: every concrete execution in this
file either uses the default `splineKind = "akima"` (whose interpolation
is embedded fully, so the oracle is never consulted) or stops before any
interpolation happens. -/

/-- A trivial stand-in for the external `interp1d` (never consulted by
the concrete executions below). -/
def zeroOracle : InterpOracle := fun _ _ _ q => q.map (fun _ => 0)

/-- The rescaling factor of lines 846–848, `(max(S) - min(S)) / 100`. -/
def scaleOf (S : List ℚ) : ℚ := (pmax S - pmin S) / 100

/-- The rescaled signal `S / scale` of line 848. -/
def scaledOf (S : List ℚ) : List ℚ := S.map (fun v => v / scaleOf S)

/-- A 4-sample signal with two extrema and no zero crossing: sifting
runs out of extrema at the head of the very first iteration. -/
def sigRunout : List ℚ := [3, 1, 2, 1]

/-- `np.arange(4)`. -/
def tl4 : List ℚ := [0, 1, 2, 3]

/-- A 6-sample signal on which the first mean-envelope subtraction
removes all oscillation: the third sifting iteration finds fewer than 3
extrema *inside* `extractMaxMinSpline` (the sentinel path, line 928). -/
def sigSpline : List ℚ := [9, 8, 7, 8, 0, 1]

/-- `np.arange(6)`. -/
def tl6 : List ℚ := [0, 1, 2, 3, 4, 5]

/-- A zig-zag signal that keeps more than 2 extrema through repeated
sifting passes (used for the fixed-iteration policy). -/
def sigZig : List ℚ := [0, 4, 0, 4, 0, 4, 0]

/-- `np.arange(7)`. -/
def tl7 : List ℚ := [0, 1, 2, 3, 4, 5, 6]

/-- The engine with the fixed-iteration policy `FIXE = 1`. -/
def engFixe1 : EMDEngine := { defaultEngine with FIXE := 1 }

/-- The sifting run of `sigZig` under `FIXE = 1`. -/
def fixeRun : Except String (SiftState × SiftExit) :=
  siftLoop zeroOracle engFixe1 tl7 engFixe1.MAX_ITERATION
    (initSift (scaledOf sigZig) 7)

/-- The exit state of `fixeRun`. -/
def fixeState : SiftState :=
  match fixeRun with
  | Except.ok (s, _) => s
  | _ => initSift [] 0

/-- The sifting run of `sigSpline` under the default policy (it ends
through the envelope-construction sentinel). -/
def splineSiftRun : Except String (SiftState × SiftExit) :=
  siftLoop zeroOracle defaultEngine tl6 defaultEngine.MAX_ITERATION
    (initSift (scaledOf sigSpline) 6)

/-- The exit state of `splineSiftRun`. -/
def splineSiftState : SiftState :=
  match splineSiftRun with
  | Except.ok (s, _) => s
  | _ => initSift [] 0

/-- The sifting run of `sigRunout` under the default policy (it ends
through the head run-out branch at its first iteration). -/
def headSiftRun : Except String (SiftState × SiftExit) :=
  siftLoop zeroOracle defaultEngine tl4 defaultEngine.MAX_ITERATION
    (initSift (scaledOf sigRunout) 4)

/-- The exit state of `headSiftRun`. -/
def headSiftState : SiftState :=
  match headSiftRun with
  | Except.ok (s, _) => s
  | _ => initSift [] 0

/-- Total number of local extrema found by `findExtrema_simple` on a
signal (the count `extNo` of line 903). -/
def extremaCount (s : List ℚ) : Nat :=
  (findExtremaIdx s).1.length + (findExtremaIdx s).2.length

/-- Time grid `0 .. 20` for the boundary-extension executions. -/
def t21 : List ℚ := (List.range 21).map (fun i => (i : ℚ))

/-- A 21-sample signal whose left-edge mirroring synthesizes a
pseudo-point strictly inside the time range (maxima at samples 5 and 11,
minima at samples 8 and 18, first sample above the first minimum). -/
def s21 : List ℚ :=
  [0, 2, 4, 6, 8, 10, 7, 4, -1, 4, 7, 10, 8, 6, 4, 2, 0, -2, -4, -1, 2]

/-- A 7-sample signal whose mirroring appends the boundary sample itself,
placing pseudo-points exactly on `time[0]` and `time[-1]`. -/
def s7b : List ℚ := [5, 1, 3, 0, 4, 2, 6]

/-- The `emd` call of a `float32` signal on a fresh engine (used for the
frame-effect claim C9). -/
def dtypeRun : Except String (EMDResult × EMDEngine) :=
  emd zeroOracle 6 defaultEngine [2, 9, 4] DType.float32 none DType.float32 none

/-- The result component of `dtypeRun`. -/
def dtypeRunRes : EMDResult :=
  match dtypeRun with
  | Except.ok (r, _) => r
  | _ => EMDResult.mk [] [] [] 0 []

/-- The post-call engine component of `dtypeRun`. -/
def dtypeRunEng : EMDEngine :=
  match dtypeRun with
  | Except.ok (_, e) => e
  | _ => defaultEngine

/-- A small three-sample decomposition (used as the witness run for the
invariant claim C10). -/
def smallRun : Except String (EMDResult × EMDEngine) :=
  emd zeroOracle 6 defaultEngine [2, 9, 4] DType.float64 none DType.float64 none

/-- The result component of `smallRun`. -/
def smallRunRes : EMDResult :=
  match smallRun with
  | Except.ok (r, _) => r
  | _ => EMDResult.mk [] [] [] 0 []

/-- The post-call engine component of `smallRun`. -/
def smallRunEng : EMDEngine :=
  match smallRun with
  | Except.ok (_, e) => e
  | _ => defaultEngine

/-! ## Theorems settling the claims -/

/-- Claim C1 (code bug, evaluation at the failing state).  The default
stopping policy's convergence check does *not* compute its difference
metrics between the current candidate and the previous iteration's
candidate: the call `self.checkImf(imf, maxEnv, minEnv, mean, extNo)`
(line 972) binds the upper envelope `maxEnv` to the parameter `imfOld`
of `checkImf(self, imfNew, imfOld, eMax, eMin, mean)` (line 784), the
lower envelope to `eMax` and the mean envelope to `eMin`, while the
actual previous candidate (`imfOld`, maintained at line 923) is never
passed.  At the state below the previous candidate equals the current
one, so the claim's test (both metrics `0`) accepts, yet the code's test
rejects because it measures the distance to the upper envelope
`[10, 20, 10, 20]` instead. -/
theorem checkImf_compares_against_max_envelope :
    checkImf (2 / 10) (1 / 1000) [1, 1, 1, 1] [10, 20, 10, 20]
      [0, 0, 0, 0] [0, 0, 0, 0] 4 = false ∧
    checkImfStated (2 / 10) (1 / 1000) [1, 1, 1, 1] [1, 1, 1, 1] = true := by
  with_unfolding_all decide

/-- Claim C2 (counterexample).  On the constant signal (100 samples, all
equal to `5.0`) `decompose` does *not* return zero IMFs: the outer loop
stores the working candidate as IMF 0 before any end condition is
evaluated, so the returned mapping has exactly one entry (`imfNo = 1`),
not zero.  (In NumPy the constant signal makes `scale = 0` and the
division at line 848 produces `inf` with a warning rather than an
exception; in this exact model the quotient is `0`.  Either way the
candidate has no extrema, the run-out branch fires at the first
iteration, and the loop body still stores entry 0.) -/
theorem constant_signal_returns_one_imf_not_zero :
    (emd zeroOracle 6 defaultEngine (List.replicate 100 5) DType.float64 none
        DType.float64 none).toOption.map (fun p => p.1.imfNo) = some 1 ∧
    ¬ (emd zeroOracle 6 defaultEngine (List.replicate 100 5) DType.float64 none
        DType.float64 none).toOption.map (fun p => p.1.imfNo) = some 0 := by
  with_unfolding_all decide

/-- Claim C2 (amended).  On the constant signal (100 samples of `5.0`)
`decompose` returns normally with exactly one stored IMF entry: zero
extrema are found immediately, the first sifting iteration exits through
the head run-out branch (`ITER[0] = 1`, `EXT[0] = 0`), the candidate is
stored as IMF 0, and no residue entry is stored in the returned
mapping. -/
theorem constant_signal_run_result :
    (emd zeroOracle 6 defaultEngine (List.replicate 100 5) DType.float64 none
        DType.float64 none).toOption.map
      (fun p => (p.1.imfNo, p.1.EXT, p.1.ITER, p.1.exits)) =
    some (1, [0], [1], [SiftExit.runOutHead]) := by
  with_unfolding_all decide

/-- Claim C3 (counterexample).  Under the default stopping policy an IMF
stored in the returned result can violate `|extNo - nzm| ≤ 1`: on the
signal `[3, 1, 2, 1]` the extrema run out immediately (2 extrema), the
candidate is stored as-is as IMF 0, and the accepted candidate has 2
local extrema but 0 zero crossings, so the difference is `2 > 1`. -/
theorem stored_imf_can_violate_extrema_crossing_bound :
    (emd zeroOracle 6 defaultEngine sigRunout DType.float64 none DType.float64
        none).toOption.map (fun p => (p.1.IMF, p.1.EXT, p.1.exits)) =
      some ([[3, 1, 2, 1]], [2], [SiftExit.runOutHead]) ∧
    extremaCount [3, 1, 2, 1] = 2 ∧
    (zeroCrossIdx [3, 1, 2, 1]).length = 0 ∧
    ¬ (((2 : ℤ) - (0 : ℤ)).natAbs ≤ 1) := by
  with_unfolding_all decide

/-- Claim C3 (amended).  The bound `|extNo - nzm| ≤ 1` holds exactly for
the IMFs accepted through the default policy's convergence break: the
break condition of lines 972–977 (`f1 and f2` with
`f2 = abs(extNo - nzm) < 2`, both counts taken on the accepted
candidate) forces it.  IMFs stored when extrema run out or when the
iteration cap expires are not subject to this bound and can violate it
(see the counterexample). -/
theorem default_break_forces_extrema_crossing_bound
    (stdThreshold scaledVarThreshold : ℚ) (imf maxEnv minEnv mean : List ℚ)
    (extNo nzm : Nat)
    (h : defaultBreak stdThreshold scaledVarThreshold imf maxEnv minEnv mean
      extNo nzm = true) :
    ((extNo : ℤ) - (nzm : ℤ)).natAbs ≤ 1 := by
  rw [defaultBreak, Bool.and_eq_true] at h
  have h3 := of_decide_eq_true h.2
  omega

/-- Witness for the amended claim C3, at a concrete accepted state. -/
theorem default_break_forces_extrema_crossing_bound_witness :
    defaultBreak (2 / 10) (1 / 1000) [1, 2, 1, 2] [1, 2, 1, 2] [0, 0, 0, 0]
      [0, 0, 0, 0] 4 3 = true ∧ ((4 : ℤ) - (3 : ℤ)).natAbs ≤ 1 :=
  ⟨by with_unfolding_all decide,
   default_break_forces_extrema_crossing_bound (2 / 10) (1 / 1000)
     [1, 2, 1, 2] [1, 2, 1, 2] [0, 0, 0, 0] [0, 0, 0, 0] 4 3
     (by with_unfolding_all decide)⟩

/-- Claim C5 (counterexample).  An unknown spline kind is *not* surfaced
at the start of the `decompose` call: with `splineKind = "bogus"` a
signal whose extrema run out immediately decomposes normally (the error
is never raised), while a signal that does build envelopes hits the
exception in the middle of the decomposition, at the first
interpolation. -/
theorem unknown_spline_kind_not_surfaced_at_call_start :
    (emd zeroOracle 6 { defaultEngine with splineKind := "bogus" } [2, 9, 4]
        DType.float64 none DType.float64 none).toOption.map
      (fun p => p.1.imfNo) = some 1 ∧
    emd zeroOracle 6 { defaultEngine with splineKind := "bogus" } sigZig
        DType.float64 none DType.float64 none =
      Except.error "No such interpolation method!" ∧
    "bogus".toLower ∉ (["akima", "cubic", "slinear", "quadratic", "linear"] :
      List String) := by
  with_unfolding_all decide

/-- Claim C5 (amended).  A spline-kind configuration outside
`{akima, cubic, linear, slinear, quadratic}` (matched case-insensitively)
makes `splinePoints` raise `Exception("No such interpolation method!")`
— but only when an envelope interpolation is attempted, i.e. lazily and
possibly mid-decomposition; a decomposition that never builds envelopes
completes without surfacing the error. -/
theorem unknown_spline_kind_raises_at_interpolation
    (oracle : InterpOracle) (T : List ℚ) (extrema : List ℚ × List ℚ)
    (kind : String)
    (h : kind.toLower ∉ (["akima", "cubic", "slinear", "quadratic", "linear"] :
      List String)) :
    splinePoints oracle T extrema kind =
      Except.error "No such interpolation method!" := by
  simp only [List.mem_cons, List.mem_singleton, not_or] at h
  obtain ⟨h1, h2, h3, h4, h5⟩ := h
  simp only [splinePoints]
  simp [h1, h2, h3, h4, h5]

/-- Witness for the amended claim C5 at the concrete kind `"bogus"`. -/
theorem unknown_spline_kind_raises_at_interpolation_witness :
    splinePoints zeroOracle [0, 1] ([0], [0]) "bogus" =
      Except.error "No such interpolation method!" :=
  unknown_spline_kind_raises_at_interpolation zeroOracle [0, 1] ([0], [0])
    "bogus" (by with_unfolding_all decide)

/-- Claim C7 (code bug, evaluation at the failing input).  On the signal
`s = [0, 1, 1, 0]` the differences are `d = [1, 0, -1]`: the maximal
zero run of `d` is at difference index 1, flanked by a strict increase
(`d[0] = 1 > 0`) and a strict decrease (`d[2] = -1 < 0`), so per the
claim exactly one local maximum should be registered at the rounded
midpoint of samples 1–2.  The code registers nothing: the stripping test
of line 725 reads `debs[0] == 1`, which discards this interior run (in
the MATLAB original this test, with 1-based indexing, discards a run
touching the *boundary*); the run list after stripping is empty and both
extrema lists come back empty. -/
theorem flanked_interior_plateau_is_dropped :
    npdiff [0, 1, 1, 0] = [1, 0, -1] ∧
    plateauRuns [0, 1, 1, 0] = [] ∧
    findExtremaIdx [0, 1, 1, 0] = ([], []) := by
  with_unfolding_all decide

/-- Claim C8 (counterexample).  With the fixed-iteration policy active
(`FIXE = 5`) the inner loop does not always perform exactly 5
envelope-subtraction passes: on a candidate whose extrema run out at the
first iteration the loop stops immediately (`n = 1`, no envelope ever
built), not after 5 passes. -/
theorem fixe_policy_can_stop_before_fixe_passes :
    (siftLoop zeroOracle { defaultEngine with FIXE := 5 } tl4
        defaultEngine.MAX_ITERATION (initSift (scaledOf sigRunout) 4)).toOption.map
      (fun p => (p.1.n, p.2)) = some (1, SiftExit.runOutHead) ∧
    (1 : Nat) ≠ 5 + 1 := by
  with_unfolding_all decide

/-- Claim C9 (counterexample).  A `decompose` call does retain
engine-instance state: line 844 assigns `self.DTYPE = S.dtype`, so after
decomposing a `float32` signal on a freshly constructed engine
(`DTYPE = float64`) the engine object differs from its pre-call
state. -/
theorem emd_retains_dtype_attribute :
    (emd zeroOracle 6 defaultEngine [2, 9, 4] DType.float32 none DType.float32
        none).toOption.map (fun p => p.2.DTYPE) = some DType.float32 ∧
    defaultEngine.DTYPE = DType.float64 ∧
    DType.float32 ≠ DType.float64 := by
  with_unfolding_all decide

/-- Claim C4 (counterexample).  When fewer than 3 extrema are found for
the working candidate *during* envelope construction (the sentinel path
of lines 926–930, reached after the mean subtraction of line 924), the
outer loop does **not** stop: on `sigSpline = [9, 8, 7, 8, 0, 1]` the
first IMF's sifting ends at iteration 3 through the sentinel
(`runOutSpline`), yet the decomposition continues and returns a second
IMF (`imfNo = 2`). -/
theorem mid_sift_runout_does_not_stop_outer_loop :
    (emd zeroOracle 6 defaultEngine sigSpline DType.float64 none DType.float64
        none).toOption.map (fun p => (p.1.imfNo, p.1.exits, p.1.ITER)) =
      some (2, [SiftExit.runOutSpline, SiftExit.runOutHead], [3, 1]) ∧
    (2 : Nat) ≠ 1 := by
  with_unfolding_all decide

/-- Claim C4 (amended).  Extraction of the current IMF always terminates
immediately with the current candidate as-is when fewer than 3 extrema
are found (a sentinel, never an exception), but the two run-out sites
behave differently in the outer loop: (1) when the deficit is detected
at the head of a sifting iteration (line 906, `notFinish = False`), the
outer loop stops right after storing this IMF; (2) when the deficit is
detected inside `extractMaxMinSpline` after the mean subtraction (lines
926–930, `notFinish = True`), the candidate is stored as-is but the
outer loop proceeds to extract further IMFs (unless an end condition
independently holds). -/
theorem extrema_runout_outer_loop_semantics (oracle : InterpOracle)
    (eng : EMDEngine) (tl sS : List ℚ) (mi : ℤ) (fuel : Nat) (st : EMDState)
    (s s' : SiftState) :
    (siftLoop oracle eng tl eng.MAX_ITERATION
        (initSift (st.IMFs.foldl elemSub sS) sS.length) =
          Except.ok (s, SiftExit.runOutHead) →
      emdLoop oracle eng tl sS mi (fuel + 1) st =
        Except.ok (storeImf st s SiftExit.runOutHead)) ∧
    (siftLoop oracle eng tl eng.MAX_ITERATION
        (initSift (st.IMFs.foldl elemSub sS) sS.length) =
          Except.ok (s', SiftExit.runOutSpline) →
      endCondition eng.rangeThreshold eng.totalPowerThreshold sS
        (storeImf st s' SiftExit.runOutSpline).IMFs = false →
      ((storeImf st s' SiftExit.runOutSpline).IMFs.length : ℤ) ≠ mi →
      emdLoop oracle eng tl sS mi (fuel + 1) st =
        emdLoop oracle eng tl sS mi fuel
          (storeImf st s' SiftExit.runOutSpline)) := by
  constructor
  · intro h
    simp only [emdLoop]
    rw [h]
    simp
  · intro h hend hmi
    simp only [emdLoop]
    rw [h]
    simp [hend, hmi]

/-- Witness for the amended claim C4: the head run-out of
`sigRunout = [3, 1, 2, 1]` ends the outer loop at once, while the
envelope-stage run-out of `sigSpline = [9, 8, 7, 8, 0, 1]` hands control
back to the outer loop for another round. -/
theorem extrema_runout_outer_loop_semantics_witness :
    emdLoop zeroOracle defaultEngine tl4 (scaledOf sigRunout) (-1) 5
        ⟨[], [], [], []⟩ =
      Except.ok (storeImf ⟨[], [], [], []⟩ headSiftState SiftExit.runOutHead) ∧
    emdLoop zeroOracle defaultEngine tl6 (scaledOf sigSpline) (-1) 5
        ⟨[], [], [], []⟩ =
      emdLoop zeroOracle defaultEngine tl6 (scaledOf sigSpline) (-1) 4
        (storeImf ⟨[], [], [], []⟩ splineSiftState SiftExit.runOutSpline) :=
  ⟨(extrema_runout_outer_loop_semantics zeroOracle defaultEngine tl4
      (scaledOf sigRunout) (-1) 4 ⟨[], [], [], []⟩ headSiftState
      headSiftState).1 (by with_unfolding_all rfl),
   (extrema_runout_outer_loop_semantics zeroOracle defaultEngine tl6
      (scaledOf sigSpline) (-1) 4 ⟨[], [], [], []⟩ splineSiftState
      splineSiftState).2 (by with_unfolding_all rfl)
     (by with_unfolding_all decide) (by with_unfolding_all decide)⟩

/-- Helper for the amended claim C8, proved by induction on the
remaining iteration budget: under the fixed-iteration policy
(`FIXE = k ≥ 1`), as long as the iteration counter has not passed `k`
and enough budget remains, a sifting run that does not end through one
of the two extrema run-out branches ends through the `FIXE` break at
exactly `n = k + 1`, and no path of the loop ever consults the Cauchy
convergence test (`checkImf`). -/
theorem fixe_policy_loop_aux (oracle : InterpOracle) (eng : EMDEngine)
    (tl : List ℚ) (k : Nat) (hk : eng.FIXE = k) (h1 : 1 ≤ k) :
    ∀ fuel (st s : SiftState) (ex : SiftExit),
      siftLoop oracle eng tl fuel st = Except.ok (s, ex) →
      st.n ≤ k → k + 1 ≤ st.n + fuel →
      (ex ≠ SiftExit.runOutHead → ex ≠ SiftExit.runOutSpline →
        ex = SiftExit.fixeBreak ∧ s.n = k + 1) ∧
      s.cauchyCalls = st.cauchyCalls
  | 0, st, s, ex, _, hn, hf => by omega
  | fuel + 1, st, s, ex, h, hn, hf => by
    simp only [siftLoop] at h
    split at h
    case isTrue hext =>
      split at h
      case h_1 => exact absurd h (by simp)
      case h_2 =>
        rw [Except.ok.injEq, Prod.mk.injEq] at h
        obtain ⟨hs, hex⟩ := h
        refine ⟨fun hA hB => absurd hex.symm hB, ?_⟩
        rw [← hs]
      case h_3 =>
        rw [if_pos (by omega : eng.FIXE ≠ 0)] at h
        split at h
        case isTrue hbreak =>
          rw [Except.ok.injEq, Prod.mk.injEq] at h
          obtain ⟨hs, hex⟩ := h
          rw [hk] at hbreak
          constructor
          · intro _ _
            refine ⟨hex.symm, ?_⟩
            rw [← hs]
            simp only []
            omega
          · rw [← hs]
        case isFalse hnb =>
          rw [hk] at hnb
          have ih := fixe_policy_loop_aux oracle eng tl k hk h1 fuel _ s ex h
            (by simp only []; omega) (by simp only []; omega)
          exact ⟨ih.1, by rw [ih.2]⟩
    case isFalse hext =>
      rw [Except.ok.injEq, Prod.mk.injEq] at h
      obtain ⟨hs, hex⟩ := h
      exact ⟨fun hA _ => absurd hex.symm hA, by rw [← hs]⟩

/-- Claim C8 (amended).  With the fixed-iteration stopping policy active
(`FIXE = k ≥ 1`) and the iteration cap at least `k + 1`, a sifting run
that does not run out of extrema stops through the `FIXE` break at
iteration `n = k + 1` — i.e. after exactly `k` subtractions of a built
mean envelope, the first iteration having subtracted the initial
all-zero mean — and the Cauchy convergence test is never consulted
(`checkImf` is called zero times on every path).  If the extrema run out
the loop stops earlier (see the counterexample). -/
theorem fixe_policy_stops_after_exactly_fixe_passes (oracle : InterpOracle)
    (eng : EMDEngine) (tl res : List ℚ) (len : Nat) (k : Nat)
    (s : SiftState) (ex : SiftExit)
    (hk : eng.FIXE = k) (h1 : 1 ≤ k) (hcap : k + 1 ≤ eng.MAX_ITERATION)
    (hrun : siftLoop oracle eng tl eng.MAX_ITERATION (initSift res len) =
      Except.ok (s, ex))
    (hA : ex ≠ SiftExit.runOutHead) (hB : ex ≠ SiftExit.runOutSpline) :
    ex = SiftExit.fixeBreak ∧ s.n = k + 1 ∧ s.cauchyCalls = 0 := by
  have aux := fixe_policy_loop_aux oracle eng tl k hk h1 eng.MAX_ITERATION
    (initSift res len) s ex hrun (by simp [initSift])
    (by simp only [initSift]; omega)
  obtain ⟨hmain, hc⟩ := aux
  obtain ⟨hfix, hn⟩ := hmain hA hB
  exact ⟨hfix, hn, by rw [hc]; rfl⟩

/-- Witness for the amended claim C8: on the zig-zag signal `sigZig`
with `FIXE = 1` the sifting loop exits through the `FIXE` break at
iteration `2` (one built-envelope subtraction after the initial
zero-mean pass) without ever calling `checkImf`. -/
theorem fixe_policy_stops_after_exactly_fixe_passes_witness :
    fixeRun = Except.ok (fixeState, SiftExit.fixeBreak) ∧
    (SiftExit.fixeBreak = SiftExit.fixeBreak ∧ fixeState.n = 1 + 1 ∧
      fixeState.cauchyCalls = 0) :=
  ⟨by with_unfolding_all rfl,
   fixe_policy_stops_after_exactly_fixe_passes zeroOracle engFixe1 tl7
     (scaledOf sigZig) 7 1 fixeState SiftExit.fixeBreak rfl (by decide)
     (by decide) (by with_unfolding_all rfl) (by decide) (by decide)⟩

/-- Claim C9 (amended).  A normally returning `decompose` call performs
no I/O (with the default `PLOT = 0` the plotting branches are dead and
the logger only receives suppressed debug records) and leaves every
attribute of the engine object unchanged **except** `self.DTYPE`, which
line 844 sets to the promoted common dtype of the inputs and which
persists into subsequent calls: the post-call engine is exactly the
pre-call engine with `DTYPE := emdDtype sDtype timeLine tDtype`. -/
theorem emd_changes_only_dtype (oracle : InterpOracle) (fuel : Nat)
    (eng : EMDEngine) (S : List ℚ) (sD : DType) (tl : Option (List ℚ))
    (tD : DType) (mi : Option ℤ) (r : EMDResult) (eng' : EMDEngine)
    (h : emd oracle fuel eng S sD tl tD mi = Except.ok (r, eng')) :
    eng' = { eng with DTYPE := emdDtype sD tl tD } := by
  simp only [emd] at h
  split at h
  · exact absurd h (by simp)
  · split at h
    · exact absurd h (by simp)
    · split at h
      · exact absurd h (by simp)
      · rw [Except.ok.injEq, Prod.mk.injEq] at h
        exact h.2.symm

/-- Witness for the amended claim C9, at the concrete `float32` call of
`dtypeRun`. -/
theorem emd_changes_only_dtype_witness :
    dtypeRunEng =
      { defaultEngine with DTYPE := emdDtype DType.float32 none DType.float32 } :=
  emd_changes_only_dtype zeroOracle 6 defaultEngine [2, 9, 4] DType.float32
    none DType.float32 none dtypeRunRes dtypeRunEng (by with_unfolding_all rfl)

/-- Helper for claim C10, by induction on the outer fuel: every normal
return of the outer loop has stored at least one more IMF than the state
it started from (each round stores its candidate unconditionally before
any end condition is evaluated). -/
theorem emdLoop_grows (oracle : InterpOracle) (eng : EMDEngine)
    (tl sS : List ℚ) (mi : ℤ) :
    ∀ fuel (st st' : EMDState),
      emdLoop oracle eng tl sS mi fuel st = Except.ok st' →
      st.IMFs.length + 1 ≤ st'.IMFs.length
  | 0, st, st', h => by exact absurd h (by simp [emdLoop])
  | fuel + 1, st, st', h => by
    simp only [emdLoop] at h
    split at h
    · exact absurd h (by simp)
    · split at h
      · rw [Except.ok.injEq] at h
        rw [← h]
        simp [storeImf]
      · have ih := emdLoop_grows oracle eng tl sS mi fuel _ st' h
        simp only [storeImf, List.length_append] at ih
        omega

/-- Claim C10 (confirmed).  For every input on which `decompose` returns
normally, the returned mapping contains at least one IMF: the outer loop
body stores the current candidate as IMF number `imfNo` (lines 984–988)
before evaluating any end condition, so `imfNo ≥ 1` on return and the
`IMF` mapping is nonempty. -/
theorem emd_ok_returns_at_least_one_imf (oracle : InterpOracle) (fuel : Nat)
    (eng : EMDEngine) (S : List ℚ) (sD : DType) (tl : Option (List ℚ))
    (tD : DType) (mi : Option ℤ) (r : EMDResult) (eng' : EMDEngine)
    (h : emd oracle fuel eng S sD tl tD mi = Except.ok (r, eng')) :
    1 ≤ r.imfNo ∧ r.IMF ≠ [] := by
  simp only [emd] at h
  split at h
  · exact absurd h (by simp)
  · split at h
    · exact absurd h (by simp)
    · split at h
      case h_1 => exact absurd h (by simp)
      case h_2 st hst =>
        have grow := emdLoop_grows _ _ _ _ _ _ _ _ hst
        rw [Except.ok.injEq, Prod.mk.injEq] at h
        obtain ⟨hr, _⟩ := h
        rw [← hr]
        simp only [List.length_nil] at grow
        constructor
        · simpa using grow
        · simp only [ne_eq, List.map_eq_nil_iff]
          intro hnil
          rw [hnil] at grow
          simp at grow

/-- Witness for claim C10: the three-sample decomposition `smallRun`
returns normally with one IMF. -/
theorem emd_ok_returns_at_least_one_imf_witness :
    1 ≤ smallRunRes.imfNo ∧ smallRunRes.IMF ≠ [] :=
  emd_ok_returns_at_least_one_imf zeroOracle 6 defaultEngine [2, 9, 4]
    DType.float64 none DType.float64 none smallRunRes smallRunEng
    (by with_unfolding_all rfl)

/-! ## Helper lemmas for the boundary-extension claim (C6) -/

/-- Head of a `Prod.fst`-projected pair list. -/
theorem headD_map_fst (l : List (ℚ × ℚ)) :
    (l.map Prod.fst).headD 0 = (l.headD (0, 0)).1 := by
  cases l <;> rfl

/-- Last element of a `Prod.fst`-projected pair list. -/
theorem getLastD_map_fst : ∀ (l : List (ℚ × ℚ)) (d : ℚ × ℚ),
    (l.map Prod.fst).getLastD d.1 = (l.getLastD d).1
  | [], _ => rfl
  | c :: cs, d => by
    rw [List.map_cons, List.getLastD_cons, List.getLastD_cons]
    exact getLastD_map_fst cs c

/-- For a nonempty list the default of `getLastD` is irrelevant. -/
theorem getLastD_indep {α : Type} : ∀ (l : List α) (d d' : α), l ≠ [] →
    l.getLastD d = l.getLastD d'
  | [], _, _, h => absurd rfl h
  | _ :: _, _, _, _ => by rw [List.getLastD_cons, List.getLastD_cons]

/-- `dedupCols` of a nonempty list is nonempty. -/
theorem dedupCols_ne_nil : ∀ (l : List (ℚ × ℚ)), l ≠ [] → dedupCols l ≠ []
  | [], h => absurd rfl h
  | [c], _ => by simp [dedupCols]
  | c :: c' :: cs, _ => by
    simp only [dedupCols]
    split_ifs with h
    · exact dedupCols_ne_nil (c' :: cs) (by simp)
    · simp

/-- `dedupCols` keeps the first position value (a removed first column is
followed by a column with the same position). -/
theorem dedupCols_headD_fst : ∀ (l : List (ℚ × ℚ)),
    ((dedupCols l).headD (0, 0)).1 = (l.headD (0, 0)).1
  | [] => rfl
  | [_] => by simp [dedupCols]
  | c :: c' :: cs => by
    simp only [dedupCols]
    split_ifs with h
    · rw [dedupCols_headD_fst (c' :: cs)]
      simp [h]
    · simp

/-- `dedupCols` keeps the last column. -/
theorem dedupCols_getLastD : ∀ (l : List (ℚ × ℚ)) (d : ℚ × ℚ),
    (dedupCols l).getLastD d = l.getLastD d
  | [], _ => rfl
  | [_], _ => by simp [dedupCols]
  | c :: c' :: cs, d => by
    simp only [dedupCols]
    split_ifs with h
    · rw [dedupCols_getLastD (c' :: cs) d]
      conv_rhs => rw [List.getLastD_cons]
      exact getLastD_indep (c' :: cs) d c (by simp)
    · rw [List.getLastD_cons, List.getLastD_cons,
        dedupCols_getLastD (c' :: cs) c]

/-- The deduplicated position row starts with the original first
position. -/
theorem dedupAdj_headD (pos vals : List ℚ) (hl : pos.length ≤ vals.length)
    (hp : pos ≠ []) : (dedupAdj pos vals).1.headD 0 = pos.headD 0 := by
  have hz : pos.zip vals ≠ [] := by
    intro hnil
    have hlen := List.length_zip pos vals
    rw [hnil] at hlen
    simp only [List.length_nil] at hlen
    have hple : 0 < pos.length := List.length_pos.2 hp
    omega
  have hfst : (pos.zip vals).map Prod.fst = pos := List.map_fst_zip pos vals hl
  calc (dedupAdj pos vals).1.headD 0
      = ((dedupCols (pos.zip vals)).headD (0, 0)).1 :=
        headD_map_fst (dedupCols (pos.zip vals))
    _ = ((pos.zip vals).headD (0, 0)).1 :=
        dedupCols_headD_fst (pos.zip vals)
    _ = ((pos.zip vals).map Prod.fst).headD 0 :=
        (headD_map_fst (pos.zip vals)).symm
    _ = pos.headD 0 := by rw [hfst]

/-- The deduplicated position row ends with the original last
position. -/
theorem dedupAdj_getLastD (pos vals : List ℚ) (hl : pos.length ≤ vals.length) :
    (dedupAdj pos vals).1.getLastD 0 = pos.getLastD 0 := by
  have hfst : (pos.zip vals).map Prod.fst = pos := List.map_fst_zip pos vals hl
  calc (dedupAdj pos vals).1.getLastD 0
      = ((dedupCols (pos.zip vals)).getLastD (0, 0)).1 :=
        getLastD_map_fst (dedupCols (pos.zip vals)) (0, 0)
    _ = ((pos.zip vals).getLastD (0, 0)).1 := by
        rw [dedupCols_getLastD (pos.zip vals) (0, 0)]
    _ = ((pos.zip vals).map Prod.fst).getLastD 0 :=
        (getLastD_map_fst (pos.zip vals) (0, 0)).symm
    _ = pos.getLastD 0 := by rw [hfst]

/-- Head of a concatenation with a nonempty left part. -/
theorem headD_append_left (a b : List ℚ) (ha : a ≠ []) :
    (a ++ b).headD 0 = a.headD 0 := by
  cases a with
  | nil => exact absurd rfl ha
  | cons x xs => rfl

/-- Last element of a concatenation with a nonempty right part. -/
theorem getLastD_append_right : ∀ (a b : List ℚ) (d : ℚ), b ≠ [] →
    (a ++ b).getLastD d = b.getLastD d
  | [], _, _, _ => rfl
  | x :: xs, b, d, h => by
    rw [List.cons_append, List.getLastD_cons, getLastD_append_right xs b x h]
    exact getLastD_indep b x d h

/-- A nonempty list contains its head. -/
theorem headD_mem {α : Type} (l : List α) (d : α) (h : l ≠ []) :
    l.headD d ∈ l := by
  cases l with
  | nil => exact absurd rfl h
  | cons x xs => exact List.mem_cons_self x xs

/-- A nonempty list contains its last element, whatever the default. -/
theorem getLastD_mem {α : Type} : ∀ (l : List α) (d : α), l ≠ [] →
    l.getLastD d ∈ l
  | [], _, h => absurd rfl h
  | [x], d, _ => by simp [List.getLastD_cons]
  | x :: y :: ys, d, _ => by
    rw [List.getLastD_cons]
    exact List.mem_cons_of_mem x (getLastD_mem (y :: ys) x (by simp))

/-- In a `≤`-sorted list the head is a lower bound for every member. -/
theorem headD_le_of_mem (T : List ℚ) (hT : T.Pairwise (· ≤ ·)) (y : ℚ)
    (hy : y ∈ T) : T.headD 0 ≤ y := by
  cases T with
  | nil => cases hy
  | cons x xs =>
    rcases List.mem_cons.1 hy with h | h
    · rw [h]
      exact le_refl x
    · exact (List.pairwise_cons.1 hT).1 y h

/-- In a `≤`-sorted list the last element is an upper bound for every
member. -/
theorem le_getLastD_of_mem : ∀ (T : List ℚ), T.Pairwise (· ≤ ·) →
    ∀ y ∈ T, ∀ d : ℚ, y ≤ T.getLastD d
  | [], _, y, hy, _ => absurd hy (List.not_mem_nil y)
  | x :: xs, hT, y, hy, d => by
    rw [List.getLastD_cons]
    rcases List.mem_cons.1 hy with h | h
    · subst h
      cases xs with
      | nil => simp [List.getLastD]
      | cons a as =>
        exact (List.pairwise_cons.1 hT).1 _ (getLastD_mem (a :: as) y (by simp))
    · exact le_getLastD_of_mem xs (List.pairwise_cons.1 hT).2 y h x

/-- Indexing at `0` is the head. -/
theorem getD_zero_eq_headD (T : List ℚ) : T.getD 0 0 = T.headD 0 := by
  cases T <;> rfl

/-- Indexing at `length - 1` is the last element. -/
theorem getD_last_eq_getLastD : ∀ (T : List ℚ), T ≠ [] →
    T.getD (T.length - 1) 0 = T.getLastD 0
  | [], h => absurd rfl h
  | [x], _ => rfl
  | x :: y :: ys, _ => by
    have ih := getD_last_eq_getLastD (y :: ys) (by simp)
    have h1 : (x :: y :: ys).length - 1 = ((y :: ys).length - 1) + 1 := by
      simp
    rw [h1, List.getD_cons_succ, ih]
    conv_rhs => rw [List.getLastD_cons]
    exact getLastD_indep (y :: ys) 0 x (by simp)

/-- An in-range `getD` value is a member. -/
theorem getD_mem_of_lt (T : List ℚ) (i : Nat) (hi : i < T.length) :
    T.getD i 0 ∈ T := by
  rw [List.getD_eq_getElem T 0 hi]
  exact List.getElem_mem hi

/-- Elements of a Python slice are elements of the list. -/
theorem mem_pySlice {α : Type} {x : α} {l : List α} {a b : Nat}
    (h : x ∈ pySlice l a b) : x ∈ l :=
  List.mem_of_mem_take (List.mem_of_mem_drop h)

/-- Every index produced by the position lookup of lines 292–293 is a
valid index into the time array. -/
theorem posIdx_lt (T ps : List ℚ) : ∀ i ∈ posIdx T ps, i < T.length := by
  intro i hi
  simp only [posIdx] at hi
  rcases List.mem_flatMap.1 hi with ⟨p, _, hmem⟩
  exact List.mem_range.1 (List.mem_filter.1 hmem).1

/-- The left-edge maxima selection draws from `indmax` or appends the
boundary sample `0`. -/
theorem leftSel_emax_mem (S : List ℚ) (indmax indmin : List Nat)
    (nbsym : Nat) : ∀ x ∈ (leftSel S indmax indmin nbsym).emax,
      x ∈ indmax ∨ x = 0 := by
  intro x hx
  simp only [leftSel] at hx
  split_ifs at hx <;> dsimp only at hx
  · exact Or.inl (mem_pySlice (List.mem_reverse.1 hx))
  · exact Or.inl (mem_pySlice (List.mem_reverse.1 hx))
  · exact Or.inl (mem_pySlice (List.mem_reverse.1 hx))
  · rcases List.mem_append.1 hx with h | h
    · exact Or.inl (mem_pySlice (List.mem_reverse.1 h))
    · exact Or.inr (List.mem_singleton.1 h)

/-- The left-edge minima selection draws from `indmin` or appends the
boundary sample `0`. -/
theorem leftSel_emin_mem (S : List ℚ) (indmax indmin : List Nat)
    (nbsym : Nat) : ∀ x ∈ (leftSel S indmax indmin nbsym).emin,
      x ∈ indmin ∨ x = 0 := by
  intro x hx
  simp only [leftSel] at hx
  split_ifs at hx <;> dsimp only at hx
  · exact Or.inl (mem_pySlice (List.mem_reverse.1 hx))
  · rcases List.mem_append.1 hx with h | h
    · exact Or.inl (mem_pySlice (List.mem_reverse.1 h))
    · exact Or.inr (List.mem_singleton.1 h)
  · exact Or.inl (mem_pySlice (List.mem_reverse.1 hx))
  · exact Or.inl (mem_pySlice (List.mem_reverse.1 hx))

/-- The right-edge maxima selection draws from `indmax` or appends the
boundary sample `n - 1`. -/
theorem rightSel_emax_mem (S : List ℚ) (n : Nat) (indmax indmin : List Nat)
    (nbsym : Nat) : ∀ x ∈ (rightSel S n indmax indmin nbsym).emax,
      x ∈ indmax ∨ x = n - 1 := by
  intro x hx
  simp only [rightSel] at hx
  split_ifs at hx <;> dsimp only at hx
  · exact Or.inl (List.mem_of_mem_drop (List.mem_reverse.1 hx))
  · rcases List.mem_append.1 (List.mem_reverse.1 hx) with h | h
    · exact Or.inl (List.mem_of_mem_drop h)
    · exact Or.inr (List.mem_singleton.1 h)
  · exact Or.inl (mem_pySlice (List.mem_reverse.1 hx))
  · exact Or.inl (List.mem_of_mem_drop (List.mem_reverse.1 hx))

/-- The right-edge minima selection draws from `indmin` or appends the
boundary sample `n - 1`. -/
theorem rightSel_emin_mem (S : List ℚ) (n : Nat) (indmax indmin : List Nat)
    (nbsym : Nat) : ∀ x ∈ (rightSel S n indmax indmin nbsym).emin,
      x ∈ indmin ∨ x = n - 1 := by
  intro x hx
  simp only [rightSel] at hx
  split_ifs at hx <;> dsimp only at hx
  · exact Or.inl (mem_pySlice (List.mem_reverse.1 hx))
  · exact Or.inl (List.mem_of_mem_drop (List.mem_reverse.1 hx))
  · exact Or.inl (List.mem_of_mem_drop (List.mem_reverse.1 hx))
  · rcases List.mem_append.1 (List.mem_reverse.1 hx) with h | h
    · exact Or.inl (List.mem_of_mem_drop h)
    · exact Or.inr (List.mem_singleton.1 h)

/-- A clamped take-slice of a nonempty list is nonempty. -/
theorem take_slice_ne_nil (l : List Nat) (nb : Nat) (hl : l ≠ [])
    (hnb : 1 ≤ nb) : (pySlice l 0 (min l.length nb)).reverse ≠ [] := by
  intro hcon
  rw [List.reverse_eq_nil_iff] at hcon
  have h0 := congrArg List.length hcon
  simp only [pySlice, List.drop_zero, List.length_take, List.length_nil] at h0
  have := List.length_pos.2 hl
  omega

/-- A clamped drop-slice (keeping the last `nb` entries) of a nonempty
list is nonempty. -/
theorem drop_slice_ne_nil (l : List Nat) (nb : Nat) (hl : l ≠ [])
    (hnb : 1 ≤ nb) : (l.drop (toIdx ((l.length : ℤ) - nb))).reverse ≠ [] := by
  intro hcon
  rw [List.reverse_eq_nil_iff] at hcon
  have h0 := congrArg List.length hcon
  simp only [List.length_drop, List.length_nil, toIdx] at h0
  have := List.length_pos.2 hl
  omega

/-- Head of a mirrored point set. -/
theorem mirrorPos_headD (T : List ℚ) (sym : Nat) (idxs : List Nat)
    (h : idxs ≠ []) : (mirrorPos T sym idxs).headD 0 =
      2 * T.getD sym 0 - T.getD (idxs.headD 0) 0 := by
  cases idxs with
  | nil => exact absurd rfl h
  | cons x xs => rfl

/-- Last element of a map by a function into `ℚ`. -/
theorem getLastD_map_q (f : Nat → ℚ) : ∀ (l : List Nat) (d : Nat),
    (l.map f).getLastD (f d) = f (l.getLastD d)
  | [], _ => rfl
  | x :: xs, d => by
    rw [List.map_cons, List.getLastD_cons, List.getLastD_cons]
    exact getLastD_map_q f xs x

/-- Last element of a mirrored point set. -/
theorem mirrorPos_getLastD (T : List ℚ) (sym : Nat) (idxs : List Nat)
    (h : idxs ≠ []) : (mirrorPos T sym idxs).getLastD 0 =
      2 * T.getD sym 0 - T.getD (idxs.getLastD 0) 0 := by
  have hmap : idxs.map (fun i => 2 * T.getD sym 0 - T.getD i 0) ≠ [] := by
    intro hcon
    exact h (List.map_eq_nil_iff.1 hcon)
  calc (mirrorPos T sym idxs).getLastD 0
      = (mirrorPos T sym idxs).getLastD (2 * T.getD sym 0 - T.getD 0 0) :=
        getLastD_indep _ 0 _ hmap
    _ = 2 * T.getD sym 0 - T.getD (idxs.getLastD 0) 0 :=
        getLastD_map_q (fun i => 2 * T.getD sym 0 - T.getD i 0) idxs 0

/-- Mirroring across the first sample sends valid indices at or before
the first sample position. -/
theorem mirror_head_bound (T : List ℚ) (hT : T.Pairwise (· ≤ ·))
    (idxs : List Nat) (hne : idxs ≠ [])
    (hval : ∀ x ∈ idxs, x < T.length) :
    (mirrorPos T 0 idxs).headD 0 ≤ T.headD 0 := by
  rw [mirrorPos_headD T 0 idxs hne, getD_zero_eq_headD]
  have hj : T.getD (idxs.headD 0) 0 ∈ T :=
    getD_mem_of_lt T _ (hval _ (headD_mem idxs 0 hne))
  have := headD_le_of_mem T hT _ hj
  linarith

/-- Mirroring across the last sample sends valid indices at or beyond
the last sample position. -/
theorem mirror_last_bound (T : List ℚ) (hT : T.Pairwise (· ≤ ·))
    (hTne : T ≠ []) (idxs : List Nat) (hne : idxs ≠ [])
    (hval : ∀ x ∈ idxs, x < T.length) :
    T.getLastD 0 ≤ (mirrorPos T (T.length - 1) idxs).getLastD 0 := by
  rw [mirrorPos_getLastD T _ idxs hne, getD_last_eq_getLastD T hTne]
  have hj : T.getD (idxs.getLastD 0) 0 ∈ T :=
    getD_mem_of_lt T _ (hval _ (getLastD_mem idxs 0 hne))
  have := le_getLastD_of_mem T hT _ hj 0
  linarith

/-- Behaviour of the left-edge correction (lines 357–368): either no
violation was detected — the selection is returned unchanged and both
outermost mirrored positions are at or before `T[0]` — or the axis is
forced to sample `0` and each index list is either kept or re-selected
as the first `nbsym` entries of its source list. -/
theorem correctLeft_spec (T : List ℚ) (indmax indmin : List Nat)
    (nbsym : Nat) (sel lsel : EdgeSel)
    (h : correctLeft T indmax indmin nbsym sel = Except.ok lsel) :
    (lsel = sel ∧
      (mirrorPos T sel.sym sel.emin).headD 0 ≤ T.headD 0 ∧
      (mirrorPos T sel.sym sel.emax).headD 0 ≤ T.headD 0) ∨
    (lsel.sym = 0 ∧
      (lsel.emax = sel.emax ∨
        lsel.emax = (pySlice indmax 0 (min indmax.length nbsym)).reverse) ∧
      (lsel.emin = sel.emin ∨
        lsel.emin = (pySlice indmin 0 (min indmin.length nbsym)).reverse)) := by
  simp only [correctLeft] at h
  split_ifs at h with hviol hax hz
  all_goals first
  | (rw [Except.ok.injEq] at h
     subst h
     first
     | exact Or.inr ⟨rfl, (Or.inl rfl), (Or.inr rfl)⟩
     | exact Or.inr ⟨rfl, (Or.inr rfl), (Or.inl rfl)⟩
     | exact Or.inr ⟨rfl, (Or.inl rfl), (Or.inl rfl)⟩
     | exact Or.inr ⟨rfl, (Or.inr rfl), (Or.inr rfl)⟩
     | (push_neg at hviol
        exact Or.inl ⟨rfl, hviol.1, hviol.2⟩))
  | simp at h

/-- Behaviour of the right-edge correction (lines 370–381), the mirror
image of `correctLeft_spec` with the axis forced to the last sample. -/
theorem correctRight_spec (T : List ℚ) (n : Nat) (indmax indmin : List Nat)
    (nbsym : Nat) (sel rsel : EdgeSel)
    (h : correctRight T n indmax indmin nbsym sel = Except.ok rsel) :
    (rsel = sel ∧
      T.getLastD 0 ≤ (mirrorPos T sel.sym sel.emin).getLastD 0 ∧
      T.getLastD 0 ≤ (mirrorPos T sel.sym sel.emax).getLastD 0) ∨
    (rsel.sym = n - 1 ∧
      (rsel.emax = sel.emax ∨
        rsel.emax = (indmax.drop (toIdx ((indmax.length : ℤ) - nbsym))).reverse) ∧
      (rsel.emin = sel.emin ∨
        rsel.emin = (indmin.drop (toIdx ((indmin.length : ℤ) - nbsym))).reverse)) := by
  simp only [correctRight] at h
  split_ifs at h with hviol hax hz
  all_goals first
  | (rw [Except.ok.injEq] at h
     subst h
     first
     | exact Or.inr ⟨rfl, (Or.inl rfl), (Or.inr rfl)⟩
     | exact Or.inr ⟨rfl, (Or.inr rfl), (Or.inl rfl)⟩
     | exact Or.inr ⟨rfl, (Or.inl rfl), (Or.inl rfl)⟩
     | exact Or.inr ⟨rfl, (Or.inr rfl), (Or.inr rfl)⟩
     | (push_neg at hviol
        exact Or.inl ⟨rfl, hviol.1, hviol.2⟩))
  | simp at h

/-- The fallback keeps a nonempty maxima selection nonempty. -/
theorem fallbackSel_emax_ne_nil (sel : EdgeSel) (indmax indmin : List Nat)
    (h : indmax ≠ []) : (fallbackSel sel indmax indmin).emax ≠ [] := by
  simp only [fallbackSel]
  split_ifs with he
  · exact h
  · simpa using he

/-- The fallback keeps a nonempty minima selection nonempty. -/
theorem fallbackSel_emin_ne_nil (sel : EdgeSel) (indmax indmin : List Nat)
    (h : indmin ≠ []) : (fallbackSel sel indmax indmin).emin ≠ [] := by
  simp only [fallbackSel]
  split_ifs with he
  · exact h
  · simpa using he

/-- Provenance of the fallback's maxima selection. -/
theorem fallbackSel_emax_mem (sel : EdgeSel) (indmax indmin : List Nat)
    (k : Nat) (hsub : ∀ x ∈ sel.emax, x ∈ indmax ∨ x = k) :
    ∀ x ∈ (fallbackSel sel indmax indmin).emax, x ∈ indmax ∨ x = k := by
  intro x hx
  simp only [fallbackSel] at hx
  split_ifs at hx with he
  · exact Or.inl hx
  · exact hsub x hx

/-- Provenance of the fallback's minima selection. -/
theorem fallbackSel_emin_mem (sel : EdgeSel) (indmax indmin : List Nat)
    (k : Nat) (hsub : ∀ x ∈ sel.emin, x ∈ indmin ∨ x = k) :
    ∀ x ∈ (fallbackSel sel indmax indmin).emin, x ∈ indmin ∨ x = k := by
  intro x hx
  simp only [fallbackSel] at hx
  split_ifs at hx with he
  · exact Or.inl hx
  · exact hsub x hx

/-- A mirrored point set over a nonempty index list is nonempty. -/
theorem mirrorPos_ne_nil (T : List ℚ) (sym : Nat) (idxs : List Nat)
    (h : idxs ≠ []) : mirrorPos T sym idxs ≠ [] := by
  simp only [mirrorPos, ne_eq, List.map_eq_nil_iff]
  exact h

/-- Claim C6 (amended).  When `preparePoints_coppiedFromMatlab` returns
without raising, the *outermost* extended position on each end encloses
the time range non-strictly: the first extended maxima/minima position
is `≤ time[0]` and the last is `≥ time[-1]`.  (The claim's stronger
statement — every mirrored pseudo-point strictly outside
`[time[0], time[-1]]` — fails: inner mirrored points can land on or
inside the range, see the counterexample.)  The safeguard checks only
the outermost mirrored position with a strict comparison, re-mirrors
once around the boundary sample on violation, and raises only when the
axis already was the boundary sample. -/
theorem extended_positions_cover_time_range (T S maxPos minPos : List ℚ)
    (nbsym : Nat) (mx mn : List ℚ × List ℚ)
    (hT : T.Pairwise (· ≤ ·)) (hlen : S.length = T.length) (hnb : 1 ≤ nbsym)
    (hmaxne : posIdx T maxPos ≠ []) (hminne : posIdx T minPos ≠ [])
    (hok : preparePoints T S maxPos minPos nbsym = Except.ok (mx, mn)) :
    mx.1.headD 0 ≤ T.headD 0 ∧ T.getLastD 0 ≤ mx.1.getLastD 0 ∧
    mn.1.headD 0 ≤ T.headD 0 ∧ T.getLastD 0 ≤ mn.1.getLastD 0 := by
  have hTne : T ≠ [] := by
    rcases List.exists_mem_of_ne_nil _ hmaxne with ⟨i, hi⟩
    have hlt := posIdx_lt T maxPos i hi
    intro hnil
    rw [hnil] at hlt
    simp at hlt
  have hTposlen : 0 < T.length := List.length_pos.2 hTne
  simp only [preparePoints] at hok
  split at hok
  · simp at hok
  · simp at hok
  · rename_i lsel rsel hcl hcr
    rw [Except.ok.injEq, Prod.mk.injEq] at hok
    obtain ⟨hmx, hmn⟩ := hok
    have hvmax := posIdx_lt T maxPos
    have hvmin := posIdx_lt T minPos
    -- properties of the left selection after fallback
    have hfb := fallbackSel (leftSel S (posIdx T maxPos) (posIdx T minPos)
      nbsym) (posIdx T maxPos) (posIdx T minPos)
    have hfbmaxne := fallbackSel_emax_ne_nil
      (leftSel S (posIdx T maxPos) (posIdx T minPos) nbsym)
      (posIdx T maxPos) (posIdx T minPos) hmaxne
    have hfbminne := fallbackSel_emin_ne_nil
      (leftSel S (posIdx T maxPos) (posIdx T minPos) nbsym)
      (posIdx T maxPos) (posIdx T minPos) hminne
    have hfbmaxmem := fallbackSel_emax_mem
      (leftSel S (posIdx T maxPos) (posIdx T minPos) nbsym)
      (posIdx T maxPos) (posIdx T minPos) 0
      (leftSel_emax_mem S (posIdx T maxPos) (posIdx T minPos) nbsym)
    have hfbminmem := fallbackSel_emin_mem
      (leftSel S (posIdx T maxPos) (posIdx T minPos) nbsym)
      (posIdx T maxPos) (posIdx T minPos) 0
      (leftSel_emin_mem S (posIdx T maxPos) (posIdx T minPos) nbsym)
    -- properties of the right selection after fallback
    have hrbmaxne := fallbackSel_emax_ne_nil
      (rightSel S S.length (posIdx T maxPos) (posIdx T minPos) nbsym)
      (posIdx T maxPos) (posIdx T minPos) hmaxne
    have hrbminne := fallbackSel_emin_ne_nil
      (rightSel S S.length (posIdx T maxPos) (posIdx T minPos) nbsym)
      (posIdx T maxPos) (posIdx T minPos) hminne
    have hrbmaxmem := fallbackSel_emax_mem
      (rightSel S S.length (posIdx T maxPos) (posIdx T minPos) nbsym)
      (posIdx T maxPos) (posIdx T minPos) (S.length - 1)
      (rightSel_emax_mem S S.length (posIdx T maxPos) (posIdx T minPos) nbsym)
    have hrbminmem := fallbackSel_emin_mem
      (rightSel S S.length (posIdx T maxPos) (posIdx T minPos) nbsym)
      (posIdx T maxPos) (posIdx T minPos) (S.length - 1)
      (rightSel_emin_mem S S.length (posIdx T maxPos) (posIdx T minPos) nbsym)
    have hLm := correctLeft_spec T (posIdx T maxPos) (posIdx T minPos) nbsym
      _ lsel hcl
    have hRm := correctRight_spec T S.length (posIdx T maxPos)
      (posIdx T minPos) nbsym _ rsel hcr
    -- nonemptiness of the corrected selections
    have hlmaxne : lsel.emax ≠ [] := by
      rcases hLm with ⟨heq, _, _⟩ | ⟨_, hm, _⟩
      · rw [heq]; exact hfbmaxne
      · rcases hm with he | he
        · rw [he]; exact hfbmaxne
        · rw [he]; exact take_slice_ne_nil _ nbsym hmaxne hnb
    have hlminne : lsel.emin ≠ [] := by
      rcases hLm with ⟨heq, _, _⟩ | ⟨_, _, hm⟩
      · rw [heq]; exact hfbminne
      · rcases hm with he | he
        · rw [he]; exact hfbminne
        · rw [he]; exact take_slice_ne_nil _ nbsym hminne hnb
    have hrmaxne : rsel.emax ≠ [] := by
      rcases hRm with ⟨heq, _, _⟩ | ⟨_, hm, _⟩
      · rw [heq]; exact hrbmaxne
      · rcases hm with he | he
        · rw [he]; exact hrbmaxne
        · rw [he]; exact drop_slice_ne_nil _ nbsym hmaxne hnb
    have hrminne : rsel.emin ≠ [] := by
      rcases hRm with ⟨heq, _, _⟩ | ⟨_, _, hm⟩
      · rw [heq]; exact hrbminne
      · rcases hm with he | he
        · rw [he]; exact hrbminne
        · rw [he]; exact drop_slice_ne_nil _ nbsym hminne hnb
    -- index validity of the corrected selections
    have hlmaxlt : ∀ x ∈ lsel.emax, x < T.length := by
      intro x hx
      rcases hLm with ⟨heq, _, _⟩ | ⟨_, hm, _⟩
      · rw [heq] at hx
        rcases hfbmaxmem x hx with h | h
        · exact hvmax x h
        · omega
      · rcases hm with he | he
        · rw [he] at hx
          rcases hfbmaxmem x hx with h | h
          · exact hvmax x h
          · omega
        · rw [he] at hx
          exact hvmax x (mem_pySlice (List.mem_reverse.1 hx))
    have hlminlt : ∀ x ∈ lsel.emin, x < T.length := by
      intro x hx
      rcases hLm with ⟨heq, _, _⟩ | ⟨_, _, hm⟩
      · rw [heq] at hx
        rcases hfbminmem x hx with h | h
        · exact hvmin x h
        · omega
      · rcases hm with he | he
        · rw [he] at hx
          rcases hfbminmem x hx with h | h
          · exact hvmin x h
          · omega
        · rw [he] at hx
          exact hvmin x (mem_pySlice (List.mem_reverse.1 hx))
    have hrmaxlt : ∀ x ∈ rsel.emax, x < T.length := by
      intro x hx
      rcases hRm with ⟨heq, _, _⟩ | ⟨_, hm, _⟩
      · rw [heq] at hx
        rcases hrbmaxmem x hx with h | h
        · exact hvmax x h
        · omega
      · rcases hm with he | he
        · rw [he] at hx
          rcases hrbmaxmem x hx with h | h
          · exact hvmax x h
          · omega
        · rw [he] at hx
          exact hvmax x (List.mem_of_mem_drop (List.mem_reverse.1 hx))
    have hrminlt : ∀ x ∈ rsel.emin, x < T.length := by
      intro x hx
      rcases hRm with ⟨heq, _, _⟩ | ⟨_, _, hm⟩
      · rw [heq] at hx
        rcases hrbminmem x hx with h | h
        · exact hvmin x h
        · omega
      · rcases hm with he | he
        · rw [he] at hx
          rcases hrbminmem x hx with h | h
          · exact hvmin x h
          · omega
        · rw [he] at hx
          exact hvmin x (List.mem_of_mem_drop (List.mem_reverse.1 hx))
    -- outermost mirrored position bounds
    have hheadmax : (mirrorPos T lsel.sym lsel.emax).headD 0 ≤ T.headD 0 := by
      rcases hLm with ⟨heq, _, hbmax⟩ | ⟨hsym0, _, _⟩
      · rw [heq]; exact hbmax
      · rw [hsym0]
        exact mirror_head_bound T hT lsel.emax hlmaxne hlmaxlt
    have hheadmin : (mirrorPos T lsel.sym lsel.emin).headD 0 ≤ T.headD 0 := by
      rcases hLm with ⟨heq, hbmin, _⟩ | ⟨hsym0, _, _⟩
      · rw [heq]; exact hbmin
      · rw [hsym0]
        exact mirror_head_bound T hT lsel.emin hlminne hlminlt
    have hlastmax : T.getLastD 0 ≤ (mirrorPos T rsel.sym rsel.emax).getLastD 0 := by
      rcases hRm with ⟨heq, _, hbmax⟩ | ⟨hsymn, _, _⟩
      · rw [heq]; exact hbmax
      · rw [hsymn, hlen]
        exact mirror_last_bound T hT hTne rsel.emax hrmaxne hrmaxlt
    have hlastmin : T.getLastD 0 ≤ (mirrorPos T rsel.sym rsel.emin).getLastD 0 := by
      rcases hRm with ⟨heq, hbmin, _⟩ | ⟨hsymn, _, _⟩
      · rw [heq]; exact hbmin
      · rw [hsymn, hlen]
        exact mirror_last_bound T hT hTne rsel.emin hrminne hrminlt
    -- assemble
    have hlenmax : (mirrorPos T lsel.sym lsel.emax ++ gather T (posIdx T maxPos)
        ++ mirrorPos T rsel.sym rsel.emax).length ≤
        (gather S lsel.emax ++ gather S (posIdx T maxPos) ++
          gather S rsel.emax).length := by
      simp [mirrorPos, gather]
    have hlenmin : (mirrorPos T lsel.sym lsel.emin ++ gather T (posIdx T minPos)
        ++ mirrorPos T rsel.sym rsel.emin).length ≤
        (gather S lsel.emin ++ gather S (posIdx T minPos) ++
          gather S rsel.emin).length := by
      simp [mirrorPos, gather]
    have hmirlne : mirrorPos T lsel.sym lsel.emax ≠ [] :=
      mirrorPos_ne_nil T lsel.sym lsel.emax hlmaxne
    have hmirlne' : mirrorPos T lsel.sym lsel.emin ≠ [] :=
      mirrorPos_ne_nil T lsel.sym lsel.emin hlminne
    have hmirrne : mirrorPos T rsel.sym rsel.emax ≠ [] :=
      mirrorPos_ne_nil T rsel.sym rsel.emax hrmaxne
    have hmirrne' : mirrorPos T rsel.sym rsel.emin ≠ [] :=
      mirrorPos_ne_nil T rsel.sym rsel.emin hrminne
    refine ⟨?_, ?_, ?_, ?_⟩
    · rw [← hmx, dedupAdj_headD _ _ hlenmax
        (by intro hc; exact hmirlne (List.append_eq_nil.1 (List.append_eq_nil.1 hc).1).1)]
      rw [headD_append_left _ _ (by simp [hmirlne]),
        headD_append_left _ _ hmirlne]
      exact hheadmax
    · rw [← hmx, dedupAdj_getLastD _ _ hlenmax]
      rw [getLastD_append_right _ _ _ hmirrne]
      exact hlastmax
    · rw [← hmn, dedupAdj_headD _ _ hlenmin
        (by intro hc; exact hmirlne' (List.append_eq_nil.1 (List.append_eq_nil.1 hc).1).1)]
      rw [headD_append_left _ _ (by simp [hmirlne']),
        headD_append_left _ _ hmirlne']
      exact hheadmin
    · rw [← hmn, dedupAdj_getLastD _ _ hlenmin]
      rw [getLastD_append_right _ _ _ hmirrne']
      exact hlastmin

/-- Claim C6 (counterexample to the claim as stated).  The claim says
every mirrored pseudo-point lies strictly outside `[time[0], time[-1]]`.
On the 21-sample signal `s21` with maxima at indices 5 and 11, minima at
indices 8 and 18 and `nbsym = 2`, `preparePoints_coppiedFromMatlab`
returns extended minima positions `[-8, 2, 8, 18, 28]`: the left end
contributed the two mirrored pseudo-points `-8` and `2`, and `2` lies
strictly inside the time range `[0, 20]`.  The safeguard does not fire
because it inspects only the outermost mirrored position `-8`. -/
theorem mirrored_pseudo_points_not_strictly_outside :
    preparePoints t21 s21 [5, 11] [8, 18] 2 =
      Except.ok (([-1, 5, 11, 25, 31], [10, 10, 10, 10, 10]),
        ([-8, 2, 8, 18, 28], [-4, -1, -1, -4, -1])) ∧
    t21.headD 0 < (2 : ℚ) ∧ (2 : ℚ) < t21.getLastD 0 := by
  constructor
  · with_unfolding_all rfl
  · constructor
    · with_unfolding_all decide
    · with_unfolding_all decide

/-- Witness for the amended C6 theorem at the concrete `t21`/`s21` run. -/
theorem extended_positions_cover_time_range_witness :
    ([-1, 5, 11, 25, 31] : List ℚ).headD 0 ≤ t21.headD 0 ∧
    t21.getLastD 0 ≤ ([-1, 5, 11, 25, 31] : List ℚ).getLastD 0 ∧
    ([-8, 2, 8, 18, 28] : List ℚ).headD 0 ≤ t21.headD 0 ∧
    t21.getLastD 0 ≤ ([-8, 2, 8, 18, 28] : List ℚ).getLastD 0 :=
  extended_positions_cover_time_range t21 s21 [5, 11] [8, 18] 2
    (([-1, 5, 11, 25, 31], [10, 10, 10, 10, 10]))
    (([-8, 2, 8, 18, 28], [-4, -1, -1, -4, -1]))
    (by with_unfolding_all decide) (by with_unfolding_all decide)
    (by decide) (by with_unfolding_all decide) (by with_unfolding_all decide)
    (by with_unfolding_all rfl)
